import Mathlib

/-!
Verification of the gosub-engine CSS value-definition-syntax core
(crates/gosub_styling: syntax.rs, syntax_matcher.rs, css_definitions.rs).

The development shallowly embeds the grammar compiler, the value matcher and
the property-definition registry, and proves the specification claims about
them.  Rust `usize`/`u32` values are modelled as `Nat`; `f32` magnitudes are
modelled as `Int` (no verified claim depends on fractional numeric values);
fallible or panicking code returns an explicit result type; loops that are
not structurally terminating take an explicit fuel argument (`MRes.out`
signals fuel exhaustion, a model artifact that never occurs at the fuel
values used in concrete evaluations).

Note on the source snapshot: syntax_matcher.rs (and its tests) use a
`multipliers : Vec<SyntaxComponentMultiplier>` field via `get_multipliers()`,
while syntax.rs still has a singular `multiplier` field.  The embedding
follows the matcher's plural interface; the compiler produces singleton
multiplier lists (`update_multiplier` replaces the list), which reconciles
the two files exactly on every tree the compiler can produce.
-/

namespace Gosub

/-- Modelled from the spec: the CSS value alphabet `CssValue` lives in the
`gosub_css3::stylesheet` crate, which is not part of the source snapshot.
Constructors follow the spec data model (§3): `None`, `Color`, `Number`,
`Percentage`, `String`, `Unit(magnitude, suffix)`, `Zero`, `Comma`,
`Function(name, args)`, `List(values)`, `Inherit`, `Initial`.  `RgbColor` is
modelled by its source text; numeric magnitudes (f32 in the source) are
modelled as `Int`. -/
inductive CssValue where
  | none
  | color (c : String)
  | number (n : Int)
  | percentage (n : Int)
  | string (s : String)
  | unit (n : Int) (suffix : String)
  | zero
  | comma
  | function (name : String) (args : List CssValue)
  | list (vs : List CssValue)
  | inherit
  | initial

/-- `SyntaxComponentMultiplier` from syntax.rs (usize bounds as `Nat`). -/
inductive SyntaxComponentMultiplier where
  | once
  | zeroOrMore
  | oneOrMore
  | optional
  | between (mn mx : Nat)
  | atLeastOneValue
  | commaSeparatedRepeat (mn mx : Nat)
deriving DecidableEq, Repr

/-- `GroupCombinators` from syntax.rs. -/
inductive GroupCombinators where
  | juxtaposition
  | allAnyOrder
  | atLeastOneAnyOrder
  | exactlyOne
deriving DecidableEq, Repr

/-- `NumberOrInfinity` from syntax.rs (i64 as `Int`). -/
inductive NumberOrInfinity where
  | none
  | finiteI64 (n : Int)
  | infinity
  | negativeInfinity
deriving DecidableEq, Repr

/-- `RangeType` from syntax.rs. -/
structure RangeType where
  min : NumberOrInfinity
  max : NumberOrInfinity
deriving DecidableEq, Repr

/-- `RangeType::empty`. -/
def RangeType.empty : RangeType := ⟨.none, .none⟩

/-- `SyntaxComponent` from syntax.rs, with the matcher's plural
`multipliers` field (see file header note).  `Unit` bounds are f32 options in
the source, modelled as `Option Int`. -/
inductive SyntaxComponent where
  | genericKeyword (keyword : String) (multipliers : List SyntaxComponentMultiplier)
  | property (property : String) (multipliers : List SyntaxComponentMultiplier)
  | function (name : String) (arguments : List SyntaxComponent)
      (multipliers : List SyntaxComponentMultiplier)
  | definition (datatype : String) (quoted : Bool) (range : RangeType)
      (multipliers : List SyntaxComponentMultiplier)
  | inherit (multipliers : List SyntaxComponentMultiplier)
  | initial (multipliers : List SyntaxComponentMultiplier)
  | unset (multipliers : List SyntaxComponentMultiplier)
  | literal (literal : String) (multipliers : List SyntaxComponentMultiplier)
  | value (value : CssValue) (multipliers : List SyntaxComponentMultiplier)
  | group (components : List SyntaxComponent) (combinator : GroupCombinators)
      (multipliers : List SyntaxComponentMultiplier)
  | unit (lo hi : Option Int) (unit : List String)
      (multipliers : List SyntaxComponentMultiplier)
  | builtin (datatype : String) (multipliers : List SyntaxComponentMultiplier)

namespace SyntaxComponent

/-- `SyntaxComponent::is_group`. -/
def is_group : SyntaxComponent → Bool
  | .group _ _ _ => true
  | _ => false

/-- `SyntaxComponent::get_multipliers` (the matcher-side plural accessor). -/
def get_multipliers : SyntaxComponent → List SyntaxComponentMultiplier
  | .genericKeyword _ m => m
  | .property _ m => m
  | .function _ _ m => m
  | .definition _ _ _ m => m
  | .inherit m => m
  | .initial m => m
  | .unset m => m
  | .literal _ m => m
  | .value _ m => m
  | .group _ _ m => m
  | .unit _ _ _ m => m
  | .builtin _ m => m

/-- `SyntaxComponent::update_multiplier`: the compiler attaches the single
parsed multiplier, producing a singleton list in the plural model. -/
def update_multiplier : SyntaxComponent → SyntaxComponentMultiplier → SyntaxComponent
  | .genericKeyword k _, m => .genericKeyword k [m]
  | .property p _, m => .property p [m]
  | .function n a _, m => .function n a [m]
  | .definition d q r _, m => .definition d q r [m]
  | .inherit _, m => .inherit [m]
  | .initial _, m => .initial [m]
  | .unset _, m => .unset [m]
  | .literal l _, m => .literal l [m]
  | .value v _, m => .value v [m]
  | .group c cb _, m => .group c cb [m]
  | .unit lo hi u _, m => .unit lo hi u [m]
  | .builtin d _, m => .builtin d [m]

end SyntaxComponent

/-- `CssSyntaxTree` from syntax_matcher.rs. -/
structure CssSyntaxTree where
  components : List SyntaxComponent

/-- `MatchResult` from syntax_matcher.rs. -/
structure MatchResult where
  remainder : List CssValue
  matched : Bool
  matched_values : List CssValue

/-- `Fulfillment` from syntax_matcher.rs. -/
inductive Fulfillment where
  | notYetFulfilled
  | fulfilled
  | fulfilledButMoreAllowed
  | notFulfilled
deriving DecidableEq, Repr

/-- Outcome of running embedded Rust code: a value, an explicit
`panic!`/`todo!`/`unwrap` panic, or fuel exhaustion (model artifact). -/
inductive MRes (α : Type) where
  | ok (a : α)
  | panic
  | out

mutual

/-- Structural equality on `CssValue` (Rust `PartialEq` derive). -/
def CssValue.beq : CssValue → CssValue → Bool
  | .none, .none => true
  | .color a, .color b => a == b
  | .number a, .number b => a == b
  | .percentage a, .percentage b => a == b
  | .string a, .string b => a == b
  | .unit a s, .unit b t => a == b && s == t
  | .zero, .zero => true
  | .comma, .comma => true
  | .function n1 a1, .function n2 a2 => n1 == n2 && CssValue.beqList a1 a2
  | .list v1, .list v2 => CssValue.beqList v1 v2
  | .inherit, .inherit => true
  | .initial, .initial => true
  | _, _ => false

/-- Structural equality on lists of `CssValue`. -/
def CssValue.beqList : List CssValue → List CssValue → Bool
  | [], [] => true
  | x :: xs, y :: ys => CssValue.beq x y && CssValue.beqList xs ys
  | _, _ => false

end

/-- ASCII lower-casing of one character (Rust `eq_ignore_ascii_case` model). -/
def asciiLowerChar (c : Char) : Char :=
  if 'A' ≤ c ∧ c ≤ 'Z' then Char.ofNat (c.toNat + 32) else c

/-- Rust `str::eq_ignore_ascii_case`. -/
def eq_ignore_ascii_case (a b : String) : Bool :=
  a.data.map asciiLowerChar == b.data.map asciiLowerChar

/-- `LENGTH_UNITS` table from syntax_matcher.rs. -/
def LENGTH_UNITS : List String :=
  ["cap", "ch", "em", "ex", "ic", "lh", "rcap", "rch", "rem", "rex", "ric", "rlh",
   "vh", "vw", "vmax", "vmin", "vb", "vi", "cqw", "cqh", "cqi", "cqb", "cqmin",
   "cqmax", "px", "cm", "mm", "Q", "in", "pc", "pt"]

/-- Modelled from the spec: `gosub_css3::colors::is_named_color` — named
color-table membership (the color crate is not in the snapshot and color
tables are out of scope per spec §1 and §6; no verified claim depends on the
table's contents). -/
def named_colors : List String := ["red", "green", "blue", "black", "white"]

/-- Modelled from the spec: named color-table membership. -/
def is_named_color (s : String) : Bool := named_colors.contains s

/-- Modelled from the spec: `gosub_css3::colors::is_system_color` — system
color-table membership (see `named_colors`). -/
def system_colors : List String := ["Canvas", "CanvasText", "LinkText", "ButtonFace", "ButtonText"]

/-- Modelled from the spec: system color-table membership. -/
def is_system_color (s : String) : Bool := system_colors.contains s

/-- `no_match` helper from syntax_matcher.rs. -/
def no_match (input : List CssValue) : MatchResult := ⟨input, false, []⟩

/-- The multipliers `multiplier_fulfilled` filters out before looking at the
first remaining one. -/
def multiplierExcluded : SyntaxComponentMultiplier → Bool
  | .atLeastOneValue => true
  | .commaSeparatedRepeat _ _ => true
  | _ => false

/-- The (primary) multiplier `multiplier_fulfilled` dispatches on: the first
multiplier that is not `AtLeastOneValue`/`CommaSeparatedRepeat`, defaulting
to `Once` (source lines 593-606). -/
def primary_multiplier (component : SyntaxComponent) : SyntaxComponentMultiplier :=
  (component.get_multipliers.filter (fun m => !multiplierExcluded m)).headD .once

/-- `multiplier_fulfilled` from syntax_matcher.rs.  The final wildcard arm
mirrors the source's unreachable `_ => NotFulfilled` fallback (line 629). -/
def multiplier_fulfilled (component : SyntaxComponent) (cnt : Nat) : Fulfillment :=
  match primary_multiplier component with
  | .once =>
    match cnt with
    | 0 => .notYetFulfilled
    | 1 => .fulfilled
    | _ => .notFulfilled
  | .zeroOrMore => .fulfilledButMoreAllowed
  | .oneOrMore =>
    match cnt with
    | 0 => .notYetFulfilled
    | _ => .fulfilledButMoreAllowed
  | .optional =>
    match cnt with
    | 0 => .fulfilledButMoreAllowed
    | 1 => .fulfilled
    | _ => .notFulfilled
  | .between mn mx =>
    if cnt < mn then .notYetFulfilled
    else if mn ≤ cnt ∧ cnt ≤ mx then .fulfilledButMoreAllowed
    else .notFulfilled
  | _ => .notFulfilled

/-- `match_component_single` from syntax_matcher.rs.  `input.first().unwrap()`
panics on an empty input; `first_match(input)` is inlined as `fm`.  The
source's `unwrap_or(f32::MIN/MAX)` range defaults mean "no constraint", which
is how an absent bound is modelled here. -/
def match_component_single (input : List CssValue) (component : SyntaxComponent) :
    MRes MatchResult :=
  match input with
  | [] => .panic
  | v :: rest =>
    let fm : MatchResult := ⟨rest, true, [v]⟩
    let nm : MatchResult := no_match input
    match component with
    | .genericKeyword keyword _ =>
      (match v with
       | .none => if eq_ignore_ascii_case keyword "none" then .ok fm else .ok nm
       | .string s => if eq_ignore_ascii_case s keyword then .ok fm else .ok nm
       | _ => .ok nm)
    | .definition _ _ _ _ => .panic
    | .builtin datatype _ =>
      if datatype = "percentage" then
        match v with
        | .percentage _ => .ok fm
        | _ => .ok nm
      else if datatype = "angle" then
        match v with
        | .zero => .ok fm
        | .unit _ u =>
          if eq_ignore_ascii_case u "deg" || eq_ignore_ascii_case u "grad" ||
             eq_ignore_ascii_case u "rad" || eq_ignore_ascii_case u "turn"
          then .ok fm else .ok nm
        | _ => .ok nm
      else if datatype = "length" then
        match v with
        | .zero => .ok fm
        | .unit _ u => if LENGTH_UNITS.contains u then .ok fm else .ok nm
        | _ => .ok nm
      else if datatype = "system-color" then
        match v with
        | .string s => if is_system_color s then .ok fm else .ok nm
        | _ => .ok nm
      else if datatype = "named-color" then
        match v with
        | .string s => if is_named_color s then .ok fm else .ok nm
        | _ => .ok nm
      else if datatype = "color()" then
        match v with
        | .color _ => .ok fm
        | .string s => if s.startsWith "#" then .ok fm else .ok nm
        | _ => .ok nm
      else if datatype = "hex-color" then
        match v with
        | .color _ => .ok fm
        | .string s => if s.startsWith "#" then .ok fm else .ok nm
        | _ => .ok nm
      else .panic
    | .inherit _ =>
      (match v with
       | .inherit => .ok fm
       | .string s => if eq_ignore_ascii_case s "inherit" then .ok fm else .ok nm
       | _ => .ok nm)
    | .initial _ =>
      (match v with
       | .initial => .ok fm
       | .string s => if eq_ignore_ascii_case s "initial" then .ok fm else .ok nm
       | _ => .ok nm)
    | .unset _ =>
      (match v with
       | .string s => if eq_ignore_ascii_case s "unset" then .ok fm else .ok nm
       | _ => .ok nm)
    | .unit lo hi units _ =>
      (match v with
       | .number n => if n = 0 then .ok fm else .ok nm
       | .unit n u =>
         if units.contains u &&
            (match lo with | some f => decide (f ≤ n) | Option.none => true) &&
            (match hi with | some t => decide (n ≤ t) | Option.none => true)
         then .ok fm else .ok nm
       | _ => .ok nm)
    | .literal lit _ =>
      (match v with
       | .string s =>
         if s = lit then .ok fm
         else if eq_ignore_ascii_case s lit then .ok fm
         else .ok nm
       | _ => .ok nm)
    | .function name _ _ =>
      (match v with
       | .function cName cArgs =>
         if eq_ignore_ascii_case name cName then
           (match cArgs with
            | [] => .ok fm
            | _ :: _ => .panic)
         else .ok nm
       | _ => .ok nm)
    | .value cssValue _ => if CssValue.beq v cssValue then .ok fm else .ok nm
    | .property _ _ => .panic
    | .group _ _ _ => .panic

/-- Final count check of the comma-separated loop in `match_component`
(source lines 199-208). -/
def csv_end (raw_input : List CssValue) (csvMin csvMax csvCnt : Nat)
    (matchedValues input : List CssValue) : MRes MatchResult :=
  if csvMin ≤ csvCnt ∧ csvCnt ≤ csvMax then .ok ⟨input, true, matchedValues⟩
  else .ok (no_match raw_input)

/-- Candidate comparison of `match_group_exactly_one`: keep the candidate
with the strictly shorter remainder, so the earliest candidate wins ties. -/
def pick_shorter (best cand : Nat × MatchResult) : Nat × MatchResult :=
  if cand.2.remainder.length < best.2.remainder.length then cand else best

/-- Shortest-remainder selection of `match_group_exactly_one`
(source lines 421-437). -/
def best_of : List (Nat × MatchResult) → Option (Nat × MatchResult)
  | [] => Option.none
  | x :: xs => some (xs.foldl pick_shorter x)

/-- The `while components_matched.contains(&c_idx) { c_idx += 1 }` scan of
the any-order group matchers.  The bound argument makes it total; it is
called with `components.len() + 1`, which suffices because matched indices
are always component indices. -/
def skip_matched : Nat → List Nat → Nat → Nat
  | 0, _, i => i
  | b+1, mi, i => if mi.contains i then skip_matched b mi (i+1) else i

/-- The collection loop of `match_group_exactly_one` (source lines 395-415):
record `(index, result)` for every child whose match (`mc`, the component
matcher against the group's starting input) succeeds.  It is a plain fold
over the children; the group matcher instantiates `mc` with
`match_component` at one fixed fuel. -/
def exactly_one_collect (mc : SyntaxComponent → MRes MatchResult) :
    List SyntaxComponent → Nat → MRes (List (Nat × MatchResult))
  | [], _ => .ok []
  | c :: cs, idx =>
    match mc c with
    | .panic => .panic
    | .out => .out
    | .ok res =>
      match exactly_one_collect mc cs (idx+1) with
      | .panic => .panic
      | .out => .out
      | .ok rest => .ok (if res.matched then (idx, res) :: rest else rest)

mutual

/-- `match_component` from syntax_matcher.rs: the comma-separated-repeat
wrapper.  The multiplier scan (source lines 151-160) remembers the last
`CommaSeparatedRepeat` bounds; without one it delegates to the inner
matcher. -/
def match_component : Nat → List CssValue → SyntaxComponent → MRes MatchResult
  | 0, _, _ => .out
  | fuel+1, raw_input, component =>
    match component.get_multipliers.foldl
        (fun acc m =>
          match m with
          | SyntaxComponentMultiplier.commaSeparatedRepeat mn mx => some (mn, mx)
          | _ => acc) Option.none with
    | Option.none => match_component_inner fuel raw_input component
    | some (csvMin, csvMax) => csv_loop fuel raw_input component csvMin csvMax 0 [] raw_input  termination_by structural fuel => fuel

/-- The CSV loop of `match_component` (source lines 162-197): repeat the
inner matcher, require a literal comma between successes, reject a dangling
comma, and finish with the `[min,max]` count check. -/
def csv_loop : Nat → List CssValue → SyntaxComponent → Nat → Nat → Nat →
    List CssValue → List CssValue → MRes MatchResult
  | 0, _, _, _, _, _, _, _ => .out
  | fuel+1, raw_input, component, csvMin, csvMax, csvCnt, matchedValues, input =>
    match match_component_inner fuel input component with
    | .panic => .panic
    | .out => .out
    | .ok innerResult =>
      if innerResult.matched then
        let csvCnt' := csvCnt + 1
        let matchedValues' := matchedValues ++ innerResult.matched_values
        match innerResult.remainder with
        | [] => csv_end raw_input csvMin csvMax csvCnt' matchedValues' []
        | CssValue.comma :: rest =>
          (match rest with
           | [] => .ok (no_match raw_input)
           | _ :: _ => csv_loop fuel raw_input component csvMin csvMax csvCnt' matchedValues' rest)
        | _ :: _ => .ok (no_match raw_input)
      else
        csv_end raw_input csvMin csvMax csvCnt matchedValues input  termination_by structural fuel => fuel

/-- `match_component_inner` from syntax_matcher.rs: enter the multiplier
loop with the untouched input, no matched values and count 0. -/
def match_component_inner : Nat → List CssValue → SyntaxComponent → MRes MatchResult
  | 0, _, _ => .out
  | fuel+1, raw_input, component => inner_loop fuel raw_input component raw_input [] 0  termination_by structural fuel => fuel

/-- The multiplier loop of `match_component_inner` (source lines 56-135),
with the loop state (current input, accumulated matched values, success
count) explicit. -/
def inner_loop : Nat → List CssValue → SyntaxComponent → List CssValue →
    List CssValue → Nat → MRes MatchResult
  | 0, _, _, _, _, _ => .out
  | fuel+1, raw_input, component, input, matchedValues, cnt =>
    match input with
    | [] =>
      (match multiplier_fulfilled component 0 with
       | .fulfilled => .ok ⟨[], true, []⟩
       | .fulfilledButMoreAllowed => .ok ⟨[], true, []⟩
       | _ => .ok (no_match raw_input))
    | _ :: _ =>
      match (if component.is_group then match_component_group fuel input component
             else match_component_single input component) with
      | .panic => .panic
      | .out => .out
      | .ok res =>
        if res.matched then
          let cnt' := cnt + 1
          let matchedValues' := matchedValues ++ res.matched_values
          match multiplier_fulfilled component cnt' with
          | .notYetFulfilled => inner_loop fuel raw_input component res.remainder matchedValues' cnt'
          | .fulfilledButMoreAllowed =>
            (match res.remainder with
             | [] => .ok res
             | _ :: _ => inner_loop fuel raw_input component res.remainder matchedValues' cnt')
          | .fulfilled => .ok res
          | .notFulfilled => .ok (no_match raw_input)
        else
          match multiplier_fulfilled component cnt with
          | .notYetFulfilled => .ok res
          | .fulfilled => .ok res
          | .fulfilledButMoreAllowed => .ok ⟨input, true, matchedValues⟩
          | .notFulfilled => .ok (no_match raw_input)  termination_by structural fuel => fuel

/-- `match_component_group` from syntax_matcher.rs: combinator dispatch;
panics on a non-group component. -/
def match_component_group : Nat → List CssValue → SyntaxComponent → MRes MatchResult
  | 0, _, _ => .out
  | fuel+1, input, component =>
    match component with
    | SyntaxComponent.group components combinator _ =>
      (match combinator with
       | .juxtaposition => match_group_juxtaposition fuel input components
       | .allAnyOrder => match_group_all_any_order fuel input components
       | .atLeastOneAnyOrder => match_group_at_least_one_any_order fuel input components
       | .exactlyOne => match_group_exactly_one fuel input components)
    | _ => .panic  termination_by structural fuel => fuel

/-- `match_group_exactly_one` from syntax_matcher.rs: on a non-empty input
every child is tried against the same starting input (the loop breaks
immediately on an empty input); zero collected successes give `no_match`,
otherwise the shortest-remainder candidate (earliest on ties) is returned. -/
def match_group_exactly_one : Nat → List CssValue → List SyntaxComponent → MRes MatchResult
  | 0, _, _ => .out
  | fuel+1, raw_input, components =>
    match (match raw_input with
           | [] => MRes.ok ([] : List (Nat × MatchResult))
           | _ :: _ => exactly_one_collect (fun c => match_component fuel raw_input c) components 0) with
    | .panic => .panic
    | .out => .out
    | .ok collected =>
      match best_of collected with
      | Option.none => .ok (no_match raw_input)
      | some best => .ok ⟨best.2.remainder, true, best.2.matched_values⟩  termination_by structural fuel => fuel

/-- The shared rescanning loop of `match_group_all_any_order` and
`match_group_at_least_one_any_order` (source lines 455-482 / 503-530):
on a match restart the scan at the first unmatched index, otherwise advance
to the next unmatched index; stop when the index runs off the end or the
input is exhausted.  Returns (final input, matched values, matched indices). -/
def any_order_loop : Nat → List SyntaxComponent → List CssValue → List CssValue →
    List Nat → Nat → MRes (List CssValue × List CssValue × List Nat)
  | 0, _, _, _, _, _ => .out
  | fuel+1, components, input, matchedValues, matchedIdx, cIdx =>
    if h : cIdx < components.length then
      match input with
      | [] => .ok (input, matchedValues, matchedIdx)
      | _ :: _ =>
        match match_component fuel input components[cIdx] with
        | .panic => .panic
        | .out => .out
        | .ok res =>
          if res.matched then
            let matchedIdx' := matchedIdx ++ [cIdx]
            any_order_loop fuel components res.remainder
              (matchedValues ++ res.matched_values) matchedIdx'
              (skip_matched (components.length + 1) matchedIdx' 0)
          else
            any_order_loop fuel components input matchedValues matchedIdx
              (skip_matched (components.length + 1) matchedIdx (cIdx+1))
    else .ok (input, matchedValues, matchedIdx)  termination_by structural fuel => fuel

/-- `match_group_at_least_one_any_order` from syntax_matcher.rs: success iff
the matched set is non-empty. -/
def match_group_at_least_one_any_order : Nat → List CssValue → List SyntaxComponent →
    MRes MatchResult
  | 0, _, _ => .out
  | fuel+1, raw_input, components =>
    match any_order_loop fuel components raw_input [] [] 0 with
    | .panic => .panic
    | .out => .out
    | .ok (input, matchedValues, matchedIdx) =>
      match matchedIdx with
      | [] => .ok (no_match input)
      | _ :: _ => .ok ⟨input, true, matchedValues⟩  termination_by structural fuel => fuel

/-- `match_group_all_any_order` from syntax_matcher.rs: success iff every
child got matched. -/
def match_group_all_any_order : Nat → List CssValue → List SyntaxComponent →
    MRes MatchResult
  | 0, _, _ => .out
  | fuel+1, raw_input, components =>
    match any_order_loop fuel components raw_input [] [] 0 with
    | .panic => .panic
    | .out => .out
    | .ok (input, matchedValues, matchedIdx) =>
      if matchedIdx.length = components.length then .ok ⟨input, true, matchedValues⟩
      else .ok (no_match input)  termination_by structural fuel => fuel

/-- `match_group_juxtaposition` from syntax_matcher.rs: children in declared
order against the threaded remainder; the first failing child aborts with
`no_match` of the partially-consumed input. -/
def match_group_juxtaposition : Nat → List CssValue → List SyntaxComponent →
    MRes MatchResult
  | 0, _, _ => .out
  | fuel+1, raw_input, components => juxta_loop fuel components raw_input [] 0  termination_by structural fuel => fuel

/-- The child loop of `match_group_juxtaposition`. -/
def juxta_loop : Nat → List SyntaxComponent → List CssValue → List CssValue → Nat →
    MRes MatchResult
  | 0, _, _, _, _ => .out
  | fuel+1, components, input, matchedValues, cIdx =>
    if h : cIdx < components.length then
      match match_component fuel input components[cIdx] with
      | .panic => .panic
      | .out => .out
      | .ok res =>
        if res.matched then
          juxta_loop fuel components res.remainder (matchedValues ++ res.matched_values) (cIdx+1)
        else .ok (no_match input)
    else .ok ⟨input, true, matchedValues⟩

  termination_by structural fuel => fuel
end

/-- `CssSyntaxTree::matches` from syntax_matcher.rs: panics unless the tree
has exactly one root component; otherwise true iff the root match succeeds
with an empty remainder. -/
def CssSyntaxTree.matches (fuel : Nat) (t : CssSyntaxTree) (input : List CssValue) :
    MRes Bool :=
  match t.components with
  | [c] =>
    (match match_component fuel input c with
     | .panic => .panic
     | .out => .out
     | .ok res => .ok (res.matched && res.remainder.isEmpty))
  | _ => .panic

/-! ## The grammar compiler (syntax.rs)

The nom recursive-descent parser is embedded over `List Char`; `none` is a
nom parse error (all failures backtrack — the source never uses `cut`).
The recursive layers take fuel; leaf parsers are structurally total.
Two modelling notes: keyword/alpha character classes use ASCII classifiers
(the verified grammars are ASCII), and nom's `float` recognizer is modelled
for integer-valued literals only (no verified claim contains a fractional
or exotic numeric literal). -/

/-- Parser input. -/
abbrev PIn := List Char

/-- nom `multispace0` character class. -/
def isMultispaceChar (c : Char) : Bool := c = ' ' || c = '\t' || c = '\r' || c = '\n'

/-- nom `multispace0`. -/
def multispace0 (i : PIn) : PIn := i.dropWhile isMultispaceChar

/-- nom `space0` character class. -/
def isSpaceChar (c : Char) : Bool := c = ' ' || c = '\t'

/-- nom `space0`. -/
def space0 (i : PIn) : PIn := i.dropWhile isSpaceChar

/-- nom `tag`. -/
def tagP (s : String) (i : PIn) : Option (PIn × Unit) :=
  if s.data.isPrefixOf i then some (i.drop s.data.length, ()) else Option.none

/-- nom `tag_no_case` (ASCII case folding). -/
def tag_no_case (s : String) (i : PIn) : Option (PIn × Unit) :=
  let n := s.data.length
  if (i.take n).map asciiLowerChar == s.data.map asciiLowerChar then
    some (i.drop n, ())
  else Option.none

/-- The `ws` combinator from syntax.rs: surrounding `multispace0`. -/
def wsP {α : Type} (p : PIn → Option (PIn × α)) (i : PIn) : Option (PIn × α) :=
  match p (multispace0 i) with
  | some (i2, v) => some (multispace0 i2, v)
  | Option.none => Option.none

/-- nom `opt`: an infallible option wrapper. -/
def optP {α : Type} (p : PIn → Option (PIn × α)) (i : PIn) : PIn × Option α :=
  match p i with
  | some (i2, v) => (i2, some v)
  | Option.none => (i, Option.none)

/-- `parse_keyword` from syntax.rs: the maximal non-empty run of
alphanumeric-or-dash characters. -/
def parse_keyword (i : PIn) : Option (PIn × String) :=
  let chunk := i.takeWhile (fun c => c.isAlphanum || c = '-')
  if chunk.isEmpty then Option.none
  else some (i.drop chunk.length, String.mk chunk)

/-- Decimal value of a digit run. -/
def natOfDigits (ds : List Char) : Nat := ds.foldl (fun a c => a * 10 + (c.toNat - 48)) 0

/-- `integer` from syntax.rs: `map_res(digit0, parse::<u32>)` — at least one
digit, value within u32 range. -/
def integerP (i : PIn) : Option (PIn × Nat) :=
  let ds := i.takeWhile (fun c => c.isDigit)
  if ds.isEmpty then Option.none
  else if natOfDigits ds ≤ 4294967295 then some (i.drop ds.length, natOfDigits ds)
  else Option.none

/-- The `{min,max}` / `{n}` range of the curly-brace multipliers:
`alt(separated_pair(ws int, ws ",", ws int), map(ws int, dup))`. -/
def rangePair (i : PIn) : Option (PIn × (Nat × Nat)) :=
  (do
    let (i1, a) ← wsP integerP i
    let (i2, _) ← wsP (tagP ",") i1
    let (i3, b) ← wsP integerP i2
    some (i3, (a, b)))
  <|> (do
    let (i1, a) ← wsP integerP i
    some (i1, (a, a)))

/-- `parse_curly_braces_multiplier` from syntax.rs. -/
def parse_curly_braces_multiplier (i : PIn) : Option (PIn × SyntaxComponentMultiplier) := do
  let (i1, _) ← tagP "\x7b" i
  let (i2, r) ← rangePair i1
  let (i3, _) ← tagP "\x7d" i2
  some (i3, SyntaxComponentMultiplier.between r.1 r.2)

/-- `parse_comma_separated_multiplier` from syntax.rs: `#{min,max}` or a
bare `#` meaning `(1, u32::MAX)`. -/
def parse_comma_separated_multiplier (i : PIn) : Option (PIn × SyntaxComponentMultiplier) :=
  (do
    let (i1, _) ← wsP (tagP "#\x7b") i
    let (i2, r) ← rangePair i1
    let (i3, _) ← wsP (tagP "\x7d") i2
    some (i3, SyntaxComponentMultiplier.commaSeparatedRepeat r.1 r.2))
  <|> (do
    let (i1, _) ← wsP (tagP "#") i
    some (i1, SyntaxComponentMultiplier.commaSeparatedRepeat 1 4294967295))

/-- `parse_multipliers` from syntax.rs: optional `* + ? ! #… {…}` suffix,
defaulting to `Once`. -/
def parse_multipliers (i : PIn) : Option (PIn × SyntaxComponentMultiplier) :=
  match ((do let (i1, _) ← tagP "*" i; some (i1, SyntaxComponentMultiplier.zeroOrMore))
         <|> (do let (i1, _) ← tagP "+" i; some (i1, SyntaxComponentMultiplier.oneOrMore))
         <|> (do let (i1, _) ← tagP "?" i; some (i1, SyntaxComponentMultiplier.optional))
         <|> (do let (i1, _) ← tagP "!" i; some (i1, SyntaxComponentMultiplier.atLeastOneValue))
         <|> parse_comma_separated_multiplier i
         <|> parse_curly_braces_multiplier i) with
  | some r => some r
  | Option.none => some (i, SyntaxComponentMultiplier.once)

/-- Model of nom's `float` recognizer used by `parse_unit`: an optional sign
followed by a digit run, integer-valued (a following fractional part is not
modelled; no verified claim contains a fractional literal). -/
def floatP (i : PIn) : Option (PIn × Int) :=
  let (i1, sgn) :=
    match i with
    | '-' :: r => (r, (-1 : Int))
    | '+' :: r => (r, (1 : Int))
    | _ => (i, (1 : Int))
  let ds := i1.takeWhile (fun c => c.isDigit)
  if ds.isEmpty then Option.none
  else
    match i1.drop ds.length with
    | '.' :: _ => Option.none
    | i2 => some (i2, sgn * (natOfDigits ds : Int))

/-- nom `alpha1`. -/
def alpha1P (i : PIn) : Option (PIn × String) :=
  let a := i.takeWhile (fun c => c.isAlpha)
  if a.isEmpty then Option.none else some (i.drop a.length, String.mk a)

/-- `parse_unit` from syntax.rs: a bare numeric literal with optional unit
suffix; a bare `0` is the special `Zero` value, any other bare number is an
error. -/
def parse_unit (i : PIn) : Option (PIn × SyntaxComponent) := do
  let (i1, value) ← floatP i
  let (i2, suffix) := optP alpha1P i1
  match suffix with
  | Option.none =>
    if value = 0 then some (i1, SyntaxComponent.value CssValue.zero [.once])
    else Option.none
  | some u => some (i2, SyntaxComponent.value (CssValue.unit value u) [.once])

/-- Tail of `separated_list0(ws "|", alpha1)` in `parse_unit_inner`;
each iteration consumes at least the separator, so the input length bounds
the recursion. -/
def sepAlphaTail : Nat → PIn → List String → PIn × List String
  | 0, i, acc => (i, acc)
  | f+1, i, acc =>
    match wsP (tagP "|") i with
    | Option.none => (i, acc)
    | some (i1, _) =>
      match alpha1P i1 with
      | Option.none => (i, acc)
      | some (i2, s) => sepAlphaTail f i2 (acc ++ [s])

/-- `separated_list0(ws "|", alpha1)`: the unit-suffix list. -/
def sepList0Alpha (i : PIn) : PIn × List String :=
  match alpha1P i with
  | Option.none => (i, [])
  | some (i1, s) => sepAlphaTail (i1.length + 1) i1 [s]

/-- `int_as_float` composed into the optional range bound of
`parse_unit_inner`. -/
def optIntBound (i : PIn) : PIn × Option Int :=
  match integerP i with
  | some (i1, n) => (i1, some (n : Int))
  | Option.none => (i, Option.none)

/-- `parse_unit_inner` from syntax.rs: optional `lo..hi` (or single integer)
range, then an optional `|`-separated suffix list.  The `suffixes.is_none()`
branch of the source is dead (`separated_list0` never fails), so the suffix
list is used directly. -/
def parse_unit_inner (i : PIn) : Option (PIn × SyntaxComponent) :=
  let rangeRes : Option (PIn × (Option Int × Option Int)) :=
    (do
      let (j1, lo) := optIntBound i
      let (j2, _) ← tagP ".." j1
      let (j3, hi) := optIntBound j2
      some (j3, (lo, hi)))
    <|> (do
      let (j1, n) ← integerP i
      some (j1, (some (n : Int), Option.none)))
  let (i4, range) :=
    match rangeRes with
    | some (j, r) => (j, r)
    | Option.none => (i, (Option.none, Option.none))
  let i5 := multispace0 i4
  let (i6, suffixes) := sepList0Alpha i5
  some (i6, SyntaxComponent.unit range.1 range.2 suffixes [.once])

/-- `parse_unit_function` from syntax.rs: `unit( ... )`. -/
def parse_unit_function (i : PIn) : Option (PIn × SyntaxComponent) := do
  let (i1, _) ← tagP "unit(" i
  let (i2, u) ← parse_unit_inner i1
  let (i3, _) ← tagP ")" i2
  some (i3, u)

/-- `parse_property` from syntax.rs: `'name'`. -/
def parse_property (i : PIn) : Option (PIn × SyntaxComponent) := do
  let (i1, _) ← tagP "'" i
  let (i2, s) ← parse_keyword i1
  let (i3, _) ← tagP "'" i2
  some (i3, SyntaxComponent.property s [.once])

/-- `parse_generic_keyword` from syntax.rs. -/
def parse_generic_keyword (i : PIn) : Option (PIn × SyntaxComponent) := do
  let (i1, s) ← parse_keyword i
  some (i1, SyntaxComponent.genericKeyword s [.once])

/-- `parse_infinity` from syntax.rs (note the source tries `inf` before
`-inf`). -/
def parse_infinity (i : PIn) : Option (PIn × NumberOrInfinity) :=
  (do let (i1, _) ← tag_no_case "inf" i; some (i1, NumberOrInfinity.infinity))
  <|> (do let (i1, _) ← tag_no_case "∞" i; some (i1, NumberOrInfinity.infinity))
  <|> (do let (i1, _) ← tag_no_case "-inf" i; some (i1, NumberOrInfinity.negativeInfinity))
  <|> (do let (i1, _) ← tag_no_case "-∞" i; some (i1, NumberOrInfinity.negativeInfinity))

/-- `parse_signed_integer` from syntax.rs: optional sign, digits, i64 range
check. -/
def parse_signed_integer (i : PIn) : Option (PIn × NumberOrInfinity) :=
  let (i1, sgn) :=
    match i with
    | '-' :: r => (r, (-1 : Int))
    | _ => (i, (1 : Int))
  let ds := i1.takeWhile (fun c => c.isDigit)
  if ds.isEmpty then Option.none
  else if natOfDigits ds ≤ 9223372036854775807 then
    some (i1.drop ds.length, NumberOrInfinity.finiteI64 (sgn * (natOfDigits ds : Int)))
  else Option.none

/-- The `inf | signed-integer` alternative used by `datatype_range`. -/
def infOrInt (i : PIn) : Option (PIn × NumberOrInfinity) :=
  parse_infinity i <|> parse_signed_integer i

/-- `datatype_range` from syntax.rs: `[min, max]` with optional bounds. -/
def datatype_range (i : PIn) : Option (PIn × RangeType) := do
  let (i1, _) ← wsP (tagP "[") i
  let (i2, mn) := optP (wsP infOrInt) i1
  let (i3, _) ← tagP "," i2
  let (i4, mx) := optP (wsP infOrInt) i3
  let (i5, _) ← wsP (tagP "]") i4
  some (i5, (⟨mn.getD .none, mx.getD .none⟩ : RangeType))

/-- `keyword_or_function` from syntax.rs: a keyword with an optional `()`
suffix, recognized as one slice. -/
def keyword_or_function (i : PIn) : Option (PIn × String) := do
  let (i1, k) ← parse_keyword i
  match tagP "()" i1 with
  | some (i2, _) => some (i2, k ++ "()")
  | Option.none => some (i1, k)

/-- `parse_datatype` from syntax.rs: `<name>`, `<name [min,max]>` or
`<'name'>` with optional range. -/
def parse_datatype (i : PIn) : Option (PIn × SyntaxComponent) := do
  let (i1, _) ← wsP (tagP "<") i
  let (i2, nqr) ←
    ((do
      let (j1, k) ← keyword_or_function i1
      let (j2, r) := optP datatype_range j1
      some (j2, (k, false, r)))
    <|> (do
      let (j1, _) ← wsP (tagP "'") i1
      let (j2, k) ← keyword_or_function j1
      let (j3, _) ← wsP (tagP "'") j2
      let (j4, r) := optP datatype_range j3
      some (j4, (k, true, r))) : Option (PIn × (String × Bool × Option RangeType)))
  let (i3, _) ← wsP (tagP ">") i2
  some (i3, SyntaxComponent.definition nqr.1 nqr.2.1 (nqr.2.2.getD RangeType.empty) [.once])

/-- `parse_specific_keyword` from syntax.rs: `inherit`, `initial`, `unset`. -/
def parse_specific_keyword (i : PIn) : Option (PIn × SyntaxComponent) :=
  (do let (i1, _) ← tagP "inherit" i; some (i1, SyntaxComponent.inherit [.once]))
  <|> (do let (i1, _) ← tagP "initial" i; some (i1, SyntaxComponent.initial [.once]))
  <|> (do let (i1, _) ← tagP "unset" i; some (i1, SyntaxComponent.unset [.once]))

/-- `parse_literal` from syntax.rs: `/`, `,`, or a quoted text literal. -/
def parse_literal (i : PIn) : Option (PIn × SyntaxComponent) :=
  (do let (i1, _) ← wsP (tagP "/") i; some (i1, SyntaxComponent.literal "/" [.once]))
  <|> (do let (i1, _) ← wsP (tagP ",") i; some (i1, SyntaxComponent.literal "," [.once]))
  <|> (do
    let (i1, _) ← tagP "'" i
    let s := i1.takeWhile (fun c => c ≠ Char.ofNat 39)
    let (i3, _) ← tagP "'" (i1.drop s.length)
    some (i3, SyntaxComponent.literal (String.mk s) [.once]))

/-- The `empty_arglist` parser inside `parse_function`: parentheses
containing only spaces. -/
def empty_arglist (i : PIn) : Option (PIn × Unit) := do
  let (i2, _) ← tagP "(" (space0 i)
  let (i6, _) ← tagP ")" (space0 i2)
  some (space0 i6, ())

mutual

/-- `parse_component_singlebar_list` from syntax.rs: `|`-separated
alternatives; a single item collapses, several become an `ExactlyOne`
group. -/
def parse_component_singlebar_list : Nat → PIn → Option (PIn × SyntaxComponent)
  | 0, _ => Option.none
  | f+1, i =>
    match parse_component_doublebar_list f i with
    | Option.none => Option.none
    | some (i1, c) =>
      match singlebar_tail f i1 [c] with
      | (i2, [x]) => some (i2, x)
      | (i2, comps) => some (i2, SyntaxComponent.group comps .exactlyOne [.once])

/-- Tail of the `separated_list1(ws "|", …)` loop (backtracks over a
separator whose following element fails). -/
def singlebar_tail : Nat → PIn → List SyntaxComponent → PIn × List SyntaxComponent
  | 0, i, acc => (i, acc)
  | f+1, i, acc =>
    match wsP (tagP "|") i with
    | Option.none => (i, acc)
    | some (i1, _) =>
      match parse_component_doublebar_list f i1 with
      | Option.none => (i, acc)
      | some (i2, c) => singlebar_tail f i2 (acc ++ [c])

/-- `parse_component_doublebar_list` from syntax.rs: `||`-separated items;
several become an `AtLeastOneAnyOrder` group. -/
def parse_component_doublebar_list : Nat → PIn → Option (PIn × SyntaxComponent)
  | 0, _ => Option.none
  | f+1, i =>
    match parse_component_doubleampersand_list f i with
    | Option.none => Option.none
    | some (i1, c) =>
      match doublebar_tail f i1 [c] with
      | (i2, [x]) => some (i2, x)
      | (i2, comps) => some (i2, SyntaxComponent.group comps .atLeastOneAnyOrder [.once])

/-- Tail of the `separated_list1(ws "||", …)` loop. -/
def doublebar_tail : Nat → PIn → List SyntaxComponent → PIn × List SyntaxComponent
  | 0, i, acc => (i, acc)
  | f+1, i, acc =>
    match wsP (tagP "||") i with
    | Option.none => (i, acc)
    | some (i1, _) =>
      match parse_component_doubleampersand_list f i1 with
      | Option.none => (i, acc)
      | some (i2, c) => doublebar_tail f i2 (acc ++ [c])

/-- `parse_component_doubleampersand_list` from syntax.rs: `&&`-separated
items; several become an `AllAnyOrder` group. -/
def parse_component_doubleampersand_list : Nat → PIn → Option (PIn × SyntaxComponent)
  | 0, _ => Option.none
  | f+1, i =>
    match parse_component_juxtaposition_list f i with
    | Option.none => Option.none
    | some (i1, c) =>
      match doubleampersand_tail f i1 [c] with
      | (i2, [x]) => some (i2, x)
      | (i2, comps) => some (i2, SyntaxComponent.group comps .allAnyOrder [.once])

/-- Tail of the `separated_list1(ws "&&", …)` loop. -/
def doubleampersand_tail : Nat → PIn → List SyntaxComponent → PIn × List SyntaxComponent
  | 0, i, acc => (i, acc)
  | f+1, i, acc =>
    match wsP (tagP "&&") i with
    | Option.none => (i, acc)
    | some (i1, _) =>
      match parse_component_juxtaposition_list f i1 with
      | Option.none => (i, acc)
      | some (i2, c) => doubleampersand_tail f i2 (acc ++ [c])

/-- `parse_component_juxtaposition_list` from syntax.rs: a space-separated
sequence; several items become a `Juxtaposition` group. -/
def parse_component_juxtaposition_list : Nat → PIn → Option (PIn × SyntaxComponent)
  | 0, _ => Option.none
  | f+1, i =>
    match juxta_list f i [] with
    | Option.none => Option.none
    | some (i1, [x]) => some (i1, x)
    | some (i1, comps) => some (i1, SyntaxComponent.group comps .juxtaposition [.once])

/-- `juxtaposition_or_separated_list` from syntax.rs with the
`juxtaseparator` check inlined: after each element, strip spaces; the end of
input or a following `]`, `|` or `&` ends the list, anything else must parse
as a further component (a failure is propagated, as in the source). -/
def juxta_list : Nat → PIn → List SyntaxComponent → Option (PIn × List SyntaxComponent)
  | 0, _, _ => Option.none
  | f+1, i, acc =>
    match parse_component f (space0 i) with
    | Option.none => Option.none
    | some (i2, c) =>
      let i3 := space0 i2
      match i3 with
      | [] => some (i3, acc ++ [c])
      | ch :: _ =>
        if ch = ']' || ch = '|' || ch = '&' then some (i3, acc ++ [c])
        else juxta_list f i3 (acc ++ [c])

/-- `parse_group` from syntax.rs: `[ … ]` recursing into the full operator
stack. -/
def parse_group : Nat → PIn → Option (PIn × SyntaxComponent)
  | 0, _ => Option.none
  | f+1, i =>
    match wsP (tagP "[") i with
    | Option.none => Option.none
    | some (i1, _) =>
      match parse_component_singlebar_list f i1 with
      | Option.none => Option.none
      | some (i2, c) =>
        match wsP (tagP "]") i2 with
        | Option.none => Option.none
        | some (i3, _) => some (i3, c)

/-- `parse_function` from syntax.rs: `name(...)`; the argument grammar is
parsed but dropped (the source records `arguments: vec![]` in both arms). -/
def parse_function : Nat → PIn → Option (PIn × SyntaxComponent)
  | 0, _ => Option.none
  | f+1, i =>
    match parse_keyword i with
    | Option.none => Option.none
    | some (i1, name) =>
      match empty_arglist i1 with
      | some (i2, _) => some (i2, SyntaxComponent.function name [] [.once])
      | Option.none =>
        match wsP (tagP "(") i1 with
        | Option.none => Option.none
        | some (i2, _) =>
          match parse_component_singlebar_list f (multispace0 i2) with
          | Option.none => Option.none
          | some (i3, _) =>
            match wsP (tagP ")") (multispace0 i3) with
            | Option.none => Option.none
            | some (i4, _) => some (i4, SyntaxComponent.function name [] [.once])

/-- `parse_component` from syntax.rs: the primitive alternatives in source
order, then the optional multiplier suffix. -/
def parse_component : Nat → PIn → Option (PIn × SyntaxComponent)
  | 0, _ => Option.none
  | f+1, i =>
    match (parse_unit_function i <|> parse_function f i <|> parse_property i <|>
           parse_specific_keyword i <|> parse_literal i <|> parse_group f i <|>
           parse_unit i <|> parse_datatype i <|> parse_generic_keyword i) with
    | Option.none => Option.none
    | some (i1, comp) =>
      match parse_multipliers i1 with
      | some (i2, m) => some (i2, comp.update_multiplier m)
      | Option.none => Option.none

end

/-- `parse` from syntax.rs: leading whitespace, then the full operator
stack. -/
def parseTop (fuel : Nat) (i : PIn) : Option (PIn × SyntaxComponent) :=
  parse_component_singlebar_list fuel (multispace0 i)

/-- `CssSyntax::compile` from syntax.rs: the empty source compiles to an
empty tree; otherwise the parse must consume everything up to trailing
whitespace (`input.trim().is_empty()`), and a parse error or leftover text
is a `CompileError`. -/
def compile (fuel : Nat) (source : String) : Except String CssSyntaxTree :=
  if source.isEmpty then .ok ⟨[]⟩
  else
    match parseTop fuel source.data with
    | some (rest, component) =>
      if rest.all (fun c => c.isWhitespace) then .ok ⟨[component]⟩
      else .error "Failed to parse all input"
    | Option.none => .error "CssCompile"

/-! ## The property-definition registry (css_definitions.rs)

`parse_definition_file_internal` is embedded over an explicit JSON value
model (serde_json's `Value` indexing returns `Null` for a missing key or a
non-object, and the `as_*`/`unwrap` calls panic as in the source).  The
`HashMap` of definitions is modelled as an association list whose `insert`
replaces any previous binding. -/

/-- Model of `serde_json::Value`. -/
inductive Json where
  | null
  | str (s : String)
  | bool (b : Bool)
  | num (n : Int)
  | arr (items : List Json)
  | obj (fields : List (String × Json))

/-- serde_json indexing `value[key]`: `Null` when the key is missing or the
value is not an object. -/
def Json.idx (j : Json) (k : String) : Json :=
  match j with
  | .obj fields =>
    match fields.find? (fun p => p.1 == k) with
    | some p => p.2
    | Option.none => .null
  | _ => .null

/-- `Value::as_str`. -/
def Json.as_str : Json → Option String
  | .str s => some s
  | _ => Option.none

/-- `Value::as_bool`. -/
def Json.as_bool : Json → Option Bool
  | .bool b => some b
  | _ => Option.none

/-- `Value::as_array`. -/
def Json.as_array : Json → Option (List Json)
  | .arr items => some items
  | _ => Option.none

/-- `PropertyDefinition` from css_definitions.rs.  The Rust field `syntax`
is a Lean keyword, so it is named `syntaxTree` here. -/
structure PropertyDefinition where
  name : String
  expanded_properties : List String
  syntaxTree : CssSyntaxTree
  inherits : Bool
  initial_value : Option CssValue

/-- The `expanded_properties` element conversion
(`v.as_str().unwrap().to_string()`): panics on a non-string element. -/
def mapStrings : List Json → MRes (List String)
  | [] => .ok []
  | j :: js =>
    match j.as_str with
    | Option.none => .panic
    | some s =>
      match mapStrings js with
      | .ok rest => .ok (s :: rest)
      | .panic => .panic
      | .out => .out

/-- `HashMap::insert`: replace any previous binding of the key. -/
def insertDef (m : List (String × PropertyDefinition)) (k : String)
    (v : PropertyDefinition) : List (String × PropertyDefinition) :=
  (k, v) :: m.filter (fun p => p.1 != k)

/-- `CssPropertyDefinitions::find`: look a property up by name. -/
def findProperty (m : List (String × PropertyDefinition)) (name : String) :
    Option PropertyDefinition :=
  match m.find? (fun p => p.1 == name) with
  | some p => some p.2
  | Option.none => Option.none

/-- One iteration of the entry loop of `parse_definition_file_internal`
(source lines 226-279): `entry["name"]` must be a string (unwrap panic);
`expanded_properties` elements must be strings; a present `syntax` string is
compiled, and on a compile error the property keeps the initial empty
`CssSyntaxTree::new(vec![])` (the failure is only logged); `inherits`
defaults to false.  `initial_value` is never read from the entry in the
source — the validation block at lines 252-268 tests `initial_value.clone()`
while the variable still holds its initial `None`, so that block is dead
code and the stored initial value is always `None`. -/
def load_entry (fuel : Nat) (entry : Json) : MRes PropertyDefinition :=
  match (entry.idx "name").as_str with
  | Option.none => .panic
  | some name =>
    let expRes : MRes (List String) :=
      match (entry.idx "expanded_properties").as_array with
      | some items => mapStrings items
      | Option.none => .ok []
    match expRes with
    | .panic => .panic
    | .out => .out
    | .ok expanded_properties =>
      let syntaxTree :=
        match (entry.idx "syntax").as_str with
        | some s =>
          match compile fuel s with
          | .ok ast => ast
          | .error _ => CssSyntaxTree.mk []
        | Option.none => CssSyntaxTree.mk []
      let inherits := ((entry.idx "inherits").as_bool).getD false
      .ok ⟨name, expanded_properties, syntaxTree, inherits, Option.none⟩

/-- The entry loop of `parse_definition_file_internal`: each loaded
definition is inserted under its name. -/
def load_entries (fuel : Nat) : List Json → List (String × PropertyDefinition) →
    MRes (List (String × PropertyDefinition))
  | [], defs => .ok defs
  | e :: es, defs =>
    match load_entry fuel e with
    | .panic => .panic
    | .out => .out
    | .ok d => load_entries fuel es (insertDef defs d.name d)

/-- `parse_definition_file_internal` from css_definitions.rs: the JSON root
must be an array (`as_array().unwrap()`), whose entries are loaded in
order.  (The `_typedefs` parameter of the source is unused and omitted.) -/
def parse_definition_file_internal (fuel : Nat) (json : Json) :
    MRes (List (String × PropertyDefinition)) :=
  match json.as_array with
  | Option.none => .panic
  | some entries => load_entries fuel entries []

/-! ## Specification-side definitions and concrete fixtures -/

/-- The fulfillment table exactly as the specification states it (spec §4.4).
`AtLeastOneValue` and `CommaSeparatedRepeat` are excluded from the table and,
per the spec, "default to `Once` if queried directly", so they carry the
`Once` column values here (the real primary multiplier can never be one of
them, see `primary_multiplier_not_excluded`). -/
def specFulfillment : SyntaxComponentMultiplier → Nat → Fulfillment
  | .once, 0 => .notYetFulfilled
  | .once, 1 => .fulfilled
  | .once, _ => .notFulfilled
  | .zeroOrMore, _ => .fulfilledButMoreAllowed
  | .oneOrMore, 0 => .notYetFulfilled
  | .oneOrMore, _ => .fulfilledButMoreAllowed
  | .optional, 0 => .fulfilledButMoreAllowed
  | .optional, 1 => .fulfilled
  | .optional, _ => .notFulfilled
  | .between mn mx, cnt =>
    if cnt < mn then .notYetFulfilled
    else if cnt ≤ mx then .fulfilledButMoreAllowed
    else .notFulfilled
  | .atLeastOneValue, 0 => .notYetFulfilled
  | .atLeastOneValue, 1 => .fulfilled
  | .atLeastOneValue, _ => .notFulfilled
  | .commaSeparatedRepeat _ _, 0 => .notYetFulfilled
  | .commaSeparatedRepeat _ _, 1 => .fulfilled
  | .commaSeparatedRepeat _ _, _ => .notFulfilled

/-- One "unit" match attempt of the multiplier loop (source lines 74-78):
a group match for a group component, else a single-component match. -/
def unit_match (fuel : Nat) (input : List CssValue) (component : SyntaxComponent) :
    MRes MatchResult :=
  if component.is_group then match_component_group fuel input component
  else match_component_single input component

/-- The comma-separated-repeat parameters `match_component` extracts from the
component's multipliers (source lines 146-160): the last
`CommaSeparatedRepeat` wins; `none` means no comma-separated handling. -/
def csvParams (component : SyntaxComponent) : Option (Nat × Nat) :=
  component.get_multipliers.foldl
    (fun acc m =>
      match m with
      | SyntaxComponentMultiplier.commaSeparatedRepeat mn mx => some (mn, mx)
      | _ => acc) Option.none

/-- A keyword component with the default `Once` multiplier. -/
def kwOnce (s : String) : SyntaxComponent := .genericKeyword s [.once]

/-- The string value `foo`. -/
def sfoo : CssValue := .string "foo"

/-- The string value `bar`. -/
def sbar : CssValue := .string "bar"

/-- The string value `baz`. -/
def sbaz : CssValue := .string "baz"

/-- The compiled tree of the grammar `foo | [ foo [ foo | bar ] ]`. -/
def c2_tree : CssSyntaxTree :=
  ⟨[.group [kwOnce "foo",
      .group [kwOnce "foo", .group [kwOnce "foo", kwOnce "bar"] .exactlyOne [.once]]
        .juxtaposition [.once]] .exactlyOne [.once]]⟩

/-- The keyword `foo` with an `Optional` multiplier (matches the empty
input). -/
def fooOpt : SyntaxComponent := .genericKeyword "foo" [.optional]

/-- The keyword `bar` with an `Optional` multiplier. -/
def barOpt : SyntaxComponent := .genericKeyword "bar" [.optional]

/-- The keyword `bar` with a `ZeroOrMore` multiplier. -/
def barStar : SyntaxComponent := .genericKeyword "bar" [.zeroOrMore]

/-- The compiled tree of the grammar `foo bar{1,3} baz`. -/
def c4_tree : CssSyntaxTree :=
  ⟨[.group [kwOnce "foo", .genericKeyword "bar" [.between 1 3], kwOnce "baz"]
      .juxtaposition [.once]]⟩

/-- The compiled tree of the grammar `[foo | bar | baz]#`. -/
def c5_tree : CssSyntaxTree :=
  ⟨[.group [kwOnce "foo", kwOnce "bar", kwOnce "baz"] .exactlyOne
      [.commaSeparatedRepeat 1 4294967295]]⟩

/-- The root component of `c5_tree`. -/
def c5_group : SyntaxComponent :=
  .group [kwOnce "foo", kwOnce "bar", kwOnce "baz"] .exactlyOne
    [.commaSeparatedRepeat 1 4294967295]

/-- What the code actually compiles `left | right && top` to: the
`ExactlyOne` alternation is the root (binding loosest), with the
`AllAnyOrder` group below it. -/
def precedence_actual_tree : CssSyntaxTree :=
  ⟨[.group [kwOnce "left", .group [kwOnce "right", kwOnce "top"] .allAnyOrder [.once]]
      .exactlyOne [.once]]⟩

/-- The tree the claim says `left | right && top` compiles to (an
`AllAnyOrder` root over an `ExactlyOne` child) — the inverse nesting. -/
def precedence_claimed_tree : CssSyntaxTree :=
  ⟨[.group [.group [kwOnce "left", kwOnce "right"] .exactlyOne [.once], kwOnce "top"]
      .allAnyOrder [.once]]⟩

/-- The compiled tree of `a | b || c && d e`, exhibiting the whole
precedence chain: `|` loosest, then `||`, then `&&`, then juxtaposition. -/
def precedence_chain_tree : CssSyntaxTree :=
  ⟨[.group [kwOnce "a",
      .group [kwOnce "b",
        .group [kwOnce "c", .group [kwOnce "d", kwOnce "e"] .juxtaposition [.once]]
          .allAnyOrder [.once]] .atLeastOneAnyOrder [.once]] .exactlyOne [.once]]⟩

/-- A definitions-table record whose grammar string `]` fails to compile. -/
def c7_entry : Json := .obj [("name", .str "badprop"), ("syntax", .str "]")]

/-- The definition the registry stores for `c7_entry`: registered, with the
empty zero-root tree in place of the failed grammar. -/
def c7_stored : PropertyDefinition := ⟨"badprop", [], ⟨[]⟩, false, Option.none⟩

/-- A definitions-table record that declares an `initial_value`. -/
def c8_entry : Json :=
  .obj [("name", .str "fakep"), ("syntax", .str "left"), ("initial_value", .str "left")]

/-- The definition the registry stores for `c8_entry`: the declared
initial value is silently dropped (`initial_value = none`). -/
def c8_stored : PropertyDefinition :=
  ⟨"fakep", [], ⟨[kwOnce "left"]⟩, false, Option.none⟩

/-- The compiled tree of `<length>`: an unresolved `Definition` leaf. -/
def c9_def_tree : CssSyntaxTree := ⟨[.definition "length" false RangeType.empty [.once]]⟩

/-- The compiled tree of `calc()`: a `Function` component. -/
def c9_fn_tree : CssSyntaxTree := ⟨[.function "calc" [] [.once]]⟩

/-- A definitions-table record with no `syntax` field at all. -/
def c10_entry : Json := .obj [("name", .str "emptyprop")]

/-- The definition the registry stores for `c10_entry`: a zero-root tree. -/
def c10_stored : PropertyDefinition := ⟨"emptyprop", [], ⟨[]⟩, false, Option.none⟩

/-! ## Helper lemmas -/

/-- The primary multiplier is never one of the excluded multipliers: it is
the head of the filtered list (or the default `Once`). -/
lemma primary_multiplier_not_excluded (comp : SyntaxComponent) :
    multiplierExcluded (primary_multiplier comp) = false := by
  unfold primary_multiplier
  cases h : comp.get_multipliers.filter (fun m => !multiplierExcluded m) with
  | nil => rfl
  | cons a l =>
    have ha : a ∈ comp.get_multipliers.filter (fun m => !multiplierExcluded m) := by
      rw [h]; exact List.mem_cons_self a l
    have := List.of_mem_filter ha
    simp only [List.headD]
    simpa using this

/-- At count 0 the fulfillment is never `Fulfilled` or `NotFulfilled`. -/
lemma mff_zero (comp : SyntaxComponent) :
    multiplier_fulfilled comp 0 = .notYetFulfilled ∨
    multiplier_fulfilled comp 0 = .fulfilledButMoreAllowed := by
  have hne := primary_multiplier_not_excluded comp
  unfold multiplier_fulfilled
  cases hp : primary_multiplier comp with
  | once => left; rfl
  | zeroOrMore => right; rfl
  | oneOrMore => left; rfl
  | optional => right; rfl
  | between mn mx =>
    by_cases h1 : 0 < mn
    · left; simp [h1]
    · right; simp [h1, Nat.le_of_not_lt h1]
  | atLeastOneValue => rw [hp] at hne; simp [multiplierExcluded] at hne
  | commaSeparatedRepeat mn mx => rw [hp] at hne; simp [multiplierExcluded] at hne

/-- Membership in the `ExactlyOne` collection list: exactly the indexed
children whose match (against the group's fixed starting input) succeeds. -/
lemma exactly_one_collect_mem (mc : SyntaxComponent → MRes MatchResult) :
    ∀ (comps : List SyntaxComponent) (i0 : Nat) (L : List (Nat × MatchResult)),
      exactly_one_collect mc comps i0 = .ok L →
      ∀ idx r, ((idx, r) ∈ L ↔
        ∃ k, ∃ hk : k < comps.length, idx = i0 + k ∧
          mc comps[k] = .ok r ∧ r.matched = true) := by
  intro comps
  induction comps with
  | nil =>
    intro i0 L h idx r
    simp only [exactly_one_collect] at h
    injection h with h
    subst h
    simp
  | cons c cs ih =>
    intro i0 L h idx r
    simp only [exactly_one_collect] at h
    cases hm : mc c with
    | panic => rw [hm] at h; exact absurd h (by simp)
    | out => rw [hm] at h; exact absurd h (by simp)
    | ok res =>
      rw [hm] at h
      cases hrec : exactly_one_collect mc cs (i0+1) with
      | panic => rw [hrec] at h; exact absurd h (by simp)
      | out => rw [hrec] at h; exact absurd h (by simp)
      | ok rest =>
        rw [hrec] at h
        injection h with h
        subst h
        have ihrest := ih (i0+1) rest hrec idx r
        by_cases hmat : res.matched
        · simp only [hmat, if_true]
          constructor
          · intro hmem
            rcases List.mem_cons.mp hmem with heq | hmem'
            · injection heq with h1 h2
              subst h1; subst h2
              exact ⟨0, by simp, by simp, by simpa using hm, hmat⟩
            · obtain ⟨k, hk, hidx, hmck, hmat'⟩ := ihrest.mp hmem'
              exact ⟨k+1, by simpa using Nat.succ_lt_succ hk, by omega,
                by simpa using hmck, hmat'⟩
          · rintro ⟨k, hk, hidx, hmck, hmat'⟩
            cases k with
            | zero =>
              simp only [List.getElem_cons_zero] at hmck
              rw [hm] at hmck
              injection hmck with h2
              subst h2
              have hidx0 : idx = i0 := by omega
              subst hidx0
              exact List.mem_cons_self _ _
            | succ k =>
              right
              refine ihrest.mpr ⟨k, ?_, by omega, ?_, hmat'⟩
              · simpa using hk
              · simpa using hmck
        · simp only [hmat, if_false]
          constructor
          · intro hmem
            obtain ⟨k, hk, hidx, hmck, hmat'⟩ := ihrest.mp hmem
            exact ⟨k+1, by simpa using Nat.succ_lt_succ hk, by omega,
              by simpa using hmck, hmat'⟩
          · rintro ⟨k, hk, hidx, hmck, hmat'⟩
            cases k with
            | zero =>
              simp only [List.getElem_cons_zero] at hmck
              rw [hm] at hmck
              injection hmck with h2
              subst h2
              exact absurd hmat' (by simp [hmat])
            | succ k =>
              refine ihrest.mpr ⟨k, ?_, by omega, ?_, hmat'⟩
              · simpa using hk
              · simpa using hmck

/-- Collected indices are bounded below by the starting index. -/
lemma exactly_one_collect_lb (mc : SyntaxComponent → MRes MatchResult) :
    ∀ (comps : List SyntaxComponent) (i0 : Nat) (L : List (Nat × MatchResult)),
      exactly_one_collect mc comps i0 = .ok L → ∀ p ∈ L, i0 ≤ p.1 := by
  intro comps
  induction comps with
  | nil =>
    intro i0 L h p hp
    simp only [exactly_one_collect] at h
    injection h with h; subst h
    simp at hp
  | cons c cs ih =>
    intro i0 L h p hp
    simp only [exactly_one_collect] at h
    cases hm : mc c with
    | panic => rw [hm] at h; exact absurd h (by simp)
    | out => rw [hm] at h; exact absurd h (by simp)
    | ok res =>
      rw [hm] at h
      cases hrec : exactly_one_collect mc cs (i0+1) with
      | panic => rw [hrec] at h; exact absurd h (by simp)
      | out => rw [hrec] at h; exact absurd h (by simp)
      | ok rest =>
        rw [hrec] at h
        injection h with h; subst h
        by_cases hmat : res.matched
        · simp only [hmat, if_true] at hp
          rcases List.mem_cons.mp hp with heq | hp'
          · subst heq; simp
          · have := ih (i0+1) rest hrec p hp'
            omega
        · simp only [hmat, if_false] at hp
          have := ih (i0+1) rest hrec p hp
          omega

/-- The collection list is strictly sorted by child index: candidates appear
in declaration order. -/
lemma exactly_one_collect_sorted (mc : SyntaxComponent → MRes MatchResult) :
    ∀ (comps : List SyntaxComponent) (i0 : Nat) (L : List (Nat × MatchResult)),
      exactly_one_collect mc comps i0 = .ok L →
      L.Pairwise (fun a b => a.1 < b.1) := by
  intro comps
  induction comps with
  | nil =>
    intro i0 L h
    simp only [exactly_one_collect] at h
    injection h with h; subst h
    simp
  | cons c cs ih =>
    intro i0 L h
    simp only [exactly_one_collect] at h
    cases hm : mc c with
    | panic => rw [hm] at h; exact absurd h (by simp)
    | out => rw [hm] at h; exact absurd h (by simp)
    | ok res =>
      rw [hm] at h
      cases hrec : exactly_one_collect mc cs (i0+1) with
      | panic => rw [hrec] at h; exact absurd h (by simp)
      | out => rw [hrec] at h; exact absurd h (by simp)
      | ok rest =>
        rw [hrec] at h
        injection h with h; subst h
        have hrest := ih (i0+1) rest hrec
        by_cases hmat : res.matched
        · simp only [hmat, if_true]
          refine List.Pairwise.cons ?_ hrest
          intro q hq
          have := exactly_one_collect_lb mc cs (i0+1) rest hrec q hq
          omega
        · simpa [hmat]

/-- Case analysis of one comparison step of the shortest-remainder scan:
a strictly shorter candidate replaces the best, otherwise (ties included)
the earlier best is kept. -/
lemma pick_shorter_cases (x y : Nat × MatchResult) :
    (y.2.remainder.length < x.2.remainder.length ∧ pick_shorter x y = y) ∨
    (x.2.remainder.length ≤ y.2.remainder.length ∧ pick_shorter x y = x) := by
  unfold pick_shorter
  by_cases h : y.2.remainder.length < x.2.remainder.length
  · left; exact ⟨h, by simp [h]⟩
  · right; exact ⟨Nat.le_of_not_lt h, by simp [h]⟩

/-- The shortest-remainder fold picks a member of minimal remainder length,
and among equal lengths the one with the smallest index (= earliest in the
index-sorted candidate list). -/
lemma best_fold_spec :
    ∀ (xs : List (Nat × MatchResult)) (x : Nat × MatchResult),
      (x :: xs).Pairwise (fun a b => a.1 < b.1) →
      (xs.foldl pick_shorter x ∈ x :: xs ∧
       (∀ q ∈ x :: xs,
          (xs.foldl pick_shorter x).2.remainder.length ≤ q.2.remainder.length) ∧
       (∀ q ∈ x :: xs,
          q.2.remainder.length = (xs.foldl pick_shorter x).2.remainder.length →
          (xs.foldl pick_shorter x).1 ≤ q.1)) := by
  intro xs
  induction xs with
  | nil =>
    intro x _
    refine ⟨List.mem_cons_self _ _, ?_, ?_⟩
    · intro q hq
      rcases List.mem_cons.mp hq with h | h
      · subst h; exact Nat.le_refl _
      · simp at h
    · intro q hq _
      rcases List.mem_cons.mp hq with h | h
      · subst h; exact Nat.le_refl _
      · simp at h
  | cons y ys ih =>
    intro x hpair
    rcases List.pairwise_cons.mp hpair with ⟨hx, hyys⟩
    rcases List.pairwise_cons.mp hyys with ⟨hy, hys⟩
    have hxy : x.1 < y.1 := hx y (List.mem_cons_self _ _)
    have hpair' : ((pick_shorter x y) :: ys).Pairwise (fun a b => a.1 < b.1) := by
      rcases pick_shorter_cases x y with ⟨_, hp⟩ | ⟨_, hp⟩
      · rw [hp]; exact List.pairwise_cons.mpr ⟨hy, hys⟩
      · rw [hp]
        refine List.pairwise_cons.mpr ⟨?_, hys⟩
        intro q hq
        exact hx q (List.mem_cons_of_mem _ hq)
    have hfold : (y :: ys).foldl pick_shorter x = ys.foldl pick_shorter (pick_shorter x y) := rfl
    obtain ⟨hbmem, hbmin, hbtie⟩ := ih (pick_shorter x y) hpair'
    rw [hfold]
    set b := ys.foldl pick_shorter (pick_shorter x y) with hb
    have hbp : b.2.remainder.length ≤ (pick_shorter x y).2.remainder.length :=
      hbmin _ (List.mem_cons_self _ _)
    refine ⟨?_, ?_, ?_⟩
    · rcases List.mem_cons.mp hbmem with h | h
      · rcases pick_shorter_cases x y with ⟨_, hp⟩ | ⟨_, hp⟩
        · rw [hp] at h; exact List.mem_cons_of_mem _ (h ▸ List.mem_cons_self _ _)
        · rw [hp] at h; exact h ▸ List.mem_cons_self _ _
      · exact List.mem_cons_of_mem _ (List.mem_cons_of_mem _ h)
    · intro q hq
      rcases List.mem_cons.mp hq with h | hq'
      · subst h
        rcases pick_shorter_cases q y with ⟨h1, hp⟩ | ⟨h1, hp⟩
        · exact Nat.le_of_lt (Nat.lt_of_le_of_lt (hp ▸ hbp) h1)
        · exact hp ▸ hbp
      rcases List.mem_cons.mp hq' with h | hq''
      · subst h
        rcases pick_shorter_cases x q with ⟨h1, hp⟩ | ⟨h1, hp⟩
        · exact hp ▸ hbp
        · exact Nat.le_trans (hp ▸ hbp) h1
      · exact hbmin q (List.mem_cons_of_mem _ hq'')
    · intro q hq heq
      rcases List.mem_cons.mp hq with h | hq'
      · subst h
        rcases pick_shorter_cases q y with ⟨h1, hp⟩ | ⟨h1, hp⟩
        · exfalso
          have : b.2.remainder.length < q.2.remainder.length :=
            Nat.lt_of_le_of_lt (hp ▸ hbp) h1
          omega
        · exact hbtie q (by rw [hp]; exact List.mem_cons_self _ _) heq
      rcases List.mem_cons.mp hq' with h | hq''
      · subst h
        rcases pick_shorter_cases x q with ⟨h1, hp⟩ | ⟨h1, hp⟩
        · exact hbtie q (by rw [hp]; exact List.mem_cons_self _ _) heq
        · have hxb : x.2.remainder.length = b.2.remainder.length := by
            have hbp' := hbp
            rw [hp] at hbp'
            omega
          have hb1 : b.1 ≤ x.1 :=
            hbtie x (by rw [hp]; exact List.mem_cons_self _ _) hxb
          omega
      · exact hbtie q (List.mem_cons_of_mem _ hq'') heq

/-- `best_of` on a non-empty index-sorted candidate list returns the
earliest candidate of minimal remainder length. -/
lemma best_of_spec (L : List (Nat × MatchResult)) (hne : L ≠ [])
    (hsort : L.Pairwise (fun a b => a.1 < b.1)) :
    ∃ b, best_of L = some b ∧ b ∈ L ∧
      (∀ q ∈ L, b.2.remainder.length ≤ q.2.remainder.length) ∧
      (∀ q ∈ L, q.2.remainder.length = b.2.remainder.length → b.1 ≤ q.1) := by
  cases L with
  | nil => exact absurd rfl hne
  | cons x xs =>
    obtain ⟨hm, hmin, htie⟩ := best_fold_spec xs x hsort
    exact ⟨xs.foldl pick_shorter x, rfl, hm, hmin, htie⟩

/-- On a non-empty input, `match_group_exactly_one` is the collection of all
child results followed by the shortest-remainder selection. -/
lemma match_group_exactly_one_unfold (fuel : Nat) (v : CssValue)
    (rest : List CssValue) (comps : List SyntaxComponent) :
    match_group_exactly_one (fuel+1) (v :: rest) comps =
      match exactly_one_collect (fun c => match_component fuel (v :: rest) c) comps 0 with
      | .panic => .panic
      | .out => .out
      | .ok collected =>
        match best_of collected with
        | Option.none => .ok (no_match (v :: rest))
        | some b => .ok ⟨b.2.remainder, true, b.2.matched_values⟩ := rfl

/-- Loading a concatenated entry list is loading the first part and then the
second, threading the accumulated definitions. -/
lemma load_entries_append (fuel : Nat) :
    ∀ (xs ys : List Json) (acc : List (String × PropertyDefinition)),
      load_entries fuel (xs ++ ys) acc =
        match load_entries fuel xs acc with
        | .ok defs => load_entries fuel ys defs
        | .panic => .panic
        | .out => .out := by
  intro xs
  induction xs with
  | nil => intro ys acc; rfl
  | cons x xt ih =>
    intro ys acc
    simp only [List.cons_append, load_entries]
    cases load_entry fuel x with
    | panic => rfl
    | out => rfl
    | ok d => exact ih ys (insertDef acc d.name d)

/-- Looking up the just-inserted key finds the inserted definition. -/
lemma findProperty_insert_self (m : List (String × PropertyDefinition))
    (k : String) (v : PropertyDefinition) :
    findProperty (insertDef m k v) k = some v := by
  simp [findProperty, insertDef, List.find?]

/-- Removing the bindings of a different key does not change a lookup. -/
lemma find_filter_ne (k n : String) (h : n ≠ k) :
    ∀ (m : List (String × PropertyDefinition)),
      List.find? (fun p => p.1 == n) (m.filter (fun p => p.1 != k)) =
        List.find? (fun p => p.1 == n) m := by
  intro m
  induction m with
  | nil => rfl
  | cons a l ih =>
    by_cases ha : a.1 = n
    · have h1 : (a.1 != k) = true := by simp [ha, h]
      have h2 : (a.1 == n) = true := by simp [ha]
      simp [List.filter_cons, h1, List.find?_cons, h2]
    · have h2 : (a.1 == n) = false := by simp [ha]
      by_cases hk : a.1 = k
      · have h1 : (a.1 != k) = false := by simp [hk]
        simp [List.filter_cons, h1, List.find?_cons, h2, ih]
      · have h1 : (a.1 != k) = true := by simp [hk]
        simp [List.filter_cons, h1, List.find?_cons, h2, ih]

/-- Inserting under one key leaves lookups of other keys unchanged. -/
lemma findProperty_insert_other (m : List (String × PropertyDefinition))
    (k : String) (v : PropertyDefinition) (n : String) (h : n ≠ k) :
    findProperty (insertDef m k v) n = findProperty m n := by
  have hk : (k == n) = false := by
    rw [beq_eq_false_iff_ne]
    exact fun he => h he.symm
  simp only [findProperty, insertDef, List.find?_cons, hk]
  rw [find_filter_ne k n h m]

/-- A successfully loaded entry stores the entry's name, never an initial
value, and the compiled grammar (or the empty tree when the grammar is
absent or fails to compile). -/
lemma load_entry_fields (fuel : Nat) (entry : Json) (name : String)
    (hname : (entry.idx "name").as_str = some name)
    (d : PropertyDefinition) (h : load_entry fuel entry = .ok d) :
    d.name = name ∧ d.initial_value = Option.none ∧
    d.syntaxTree =
      (match (entry.idx "syntax").as_str with
       | some s =>
         (match compile fuel s with
          | .ok ast => ast
          | .error _ => CssSyntaxTree.mk [])
       | Option.none => CssSyntaxTree.mk []) := by
  unfold load_entry at h
  rw [hname] at h
  cases hexp : (match (entry.idx "expanded_properties").as_array with
                | some items => mapStrings items
                | Option.none => .ok ([] : List String)) with
  | panic => rw [hexp] at h; exact absurd h (by simp)
  | out => rw [hexp] at h; exact absurd h (by simp)
  | ok exp =>
    rw [hexp] at h
    simp only at h
    injection h with h
    subst h
    exact ⟨rfl, rfl, rfl⟩

/-! ## The claims -/

/-- C1: for every compiled syntax tree and every value sequence,
`CssSyntaxTree::matches` requires the tree to have exactly one root
component — any other root count panics (a construction bug, not a runtime
input error) — and returns true if and only if matching the root against
the input succeeds with an empty remainder, i.e. the root consumes the
entire input. -/
theorem matches_requires_single_root_and_full_consumption :
    ∀ (fuel : Nat) (t : CssSyntaxTree) (input : List CssValue),
      (t.components.length ≠ 1 → t.matches fuel input = .panic) ∧
      (∀ c, t.components = [c] →
        (t.matches fuel input = .ok true ↔
          ∃ r, match_component fuel input c = .ok r ∧
               r.matched = true ∧ r.remainder = [])) := by
  intro fuel t input
  obtain ⟨comps⟩ := t
  constructor
  · intro h
    match comps with
    | [] => rfl
    | [c] => simp at h
    | a :: b :: rest => rfl
  · intro c hc
    simp only at hc
    subst hc
    simp only [CssSyntaxTree.matches]
    cases hm : match_component fuel input c with
    | panic => simp [hm]
    | out => simp [hm]
    | ok r =>
      simp only [hm, MRes.ok.injEq]
      constructor
      · intro hb
        refine ⟨r, rfl, ?_, ?_⟩
        · exact (Bool.and_eq_true _ _ ▸ hb).1
        · have := (Bool.and_eq_true _ _ ▸ hb).2
          exact List.isEmpty_iff.mp this
      · rintro ⟨r', hr', hm', hrem⟩
        subst hr'
        simp [hm', hrem]

/-- Witness for C1: a zero-root tree panics, and a one-root tree obeys the
full-consumption equivalence on a concrete input. -/
theorem matches_requires_single_root_witness :
    CssSyntaxTree.matches 10 ⟨[]⟩ [CssValue.string "x"] = .panic ∧
    (CssSyntaxTree.matches 10 ⟨[kwOnce "foo"]⟩ [sfoo] = .ok true ↔
      ∃ r, match_component 10 [sfoo] (kwOnce "foo") = .ok r ∧
           r.matched = true ∧ r.remainder = []) :=
  ⟨(matches_requires_single_root_and_full_consumption 10 ⟨[]⟩ [CssValue.string "x"]).1
     (by simp),
   (matches_requires_single_root_and_full_consumption 10 ⟨[kwOnce "foo"]⟩ [sfoo]).2
     (kwOnce "foo") rfl⟩

/-- Counterexample for C2 (as stated): on the empty input, two `Optional`
children both succeed when tried (each matches with an empty remainder),
yet `match_group_exactly_one` returns a no-match — its loop breaks before
trying any child — contradicting the claim that for every input, with
multiple succeeding children, the result is the shortest-remainder
candidate (which would be a match). -/
theorem exactly_one_empty_input_counterexample :
    match_component 10 [] fooOpt = .ok ⟨[], true, []⟩ ∧
    match_component 10 [] barOpt = .ok ⟨[], true, []⟩ ∧
    match_group_exactly_one 11 [] [fooOpt, barOpt] = .ok (no_match []) ∧
    (no_match ([] : List CssValue)).matched = false :=
  ⟨rfl, rfl, rfl, rfl⟩

/-- C2 (amended): for every `ExactlyOne` group and every NON-EMPTY input
(on the empty input no child is tried and the group yields no-match, see
the counterexample), each child is tried independently against the same
starting input; zero succeeding children yields no-match; otherwise the
result is the succeeding candidate with the shortest remainder, ties broken
by child declaration order (smallest child index).  In particular, for the
grammar `foo | [ foo [ foo | bar ] ]`, `matches` accepts `[foo]` and
`[foo, bar]` and rejects `[bar]` and `[bar, foo]`. -/
theorem exactly_one_shortest_remainder_spec :
    (∀ (fuel : Nat) (comps : List SyntaxComponent) (input : List CssValue)
       (L : List (Nat × MatchResult)),
      input ≠ [] →
      exactly_one_collect (fun c => match_component fuel input c) comps 0 = .ok L →
      ((∀ idx r, ((idx, r) ∈ L ↔ ∃ hk : idx < comps.length,
          match_component fuel input comps[idx] = .ok r ∧ r.matched = true)) ∧
       (L = [] → match_group_exactly_one (fuel+1) input comps = .ok (no_match input)) ∧
       (L ≠ [] → ∃ b ∈ L,
          match_group_exactly_one (fuel+1) input comps =
            .ok ⟨b.2.remainder, true, b.2.matched_values⟩ ∧
          (∀ q ∈ L, b.2.remainder.length ≤ q.2.remainder.length) ∧
          (∀ q ∈ L, q.2.remainder.length = b.2.remainder.length → b.1 ≤ q.1)))) ∧
    (compile 100 "foo | [ foo [ foo | bar ] ]" = .ok c2_tree ∧
     c2_tree.matches 60 [sfoo] = .ok true ∧
     c2_tree.matches 60 [sfoo, sbar] = .ok true ∧
     c2_tree.matches 60 [sbar] = .ok false ∧
     c2_tree.matches 60 [sbar, sfoo] = .ok false) := by
  constructor
  · intro fuel comps input L hne hcol
    obtain ⟨v, rest, rfl⟩ : ∃ v rest, input = v :: rest := by
      cases input with
      | nil => exact absurd rfl hne
      | cons v rest => exact ⟨v, rest, rfl⟩
    refine ⟨?_, ?_, ?_⟩
    · intro idx r
      have h := exactly_one_collect_mem _ comps 0 L hcol idx r
      rw [h]
      constructor
      · rintro ⟨k, hk, hidx, hmc, hmat⟩
        subst hidx
        simp only [Nat.zero_add] at *
        exact ⟨hk, hmc, hmat⟩
      · rintro ⟨hk, hmc, hmat⟩
        exact ⟨idx, hk, by omega, hmc, hmat⟩
    · intro hL
      subst hL
      rw [match_group_exactly_one_unfold, hcol]
      rfl
    · intro hL
      have hsort := exactly_one_collect_sorted _ comps 0 L hcol
      obtain ⟨b, hbest, hbmem, hbmin, hbtie⟩ := best_of_spec L hL hsort
      refine ⟨b, hbmem, ?_, hbmin, hbtie⟩
      rw [match_group_exactly_one_unfold, hcol]
      show (match best_of L with
            | Option.none => MRes.ok (no_match (v :: rest))
            | some b => MRes.ok ⟨b.2.remainder, true, b.2.matched_values⟩) = _
      rw [hbest]
  · exact ⟨rfl, rfl, rfl, rfl, rfl⟩

/-- Witness for C2: applying the amended theorem to the group
`[foo, bar]` on input `[foo]`, whose single succeeding child is child 0. -/
theorem exactly_one_shortest_remainder_witness :
    ∃ b ∈ ([(0, (⟨[], true, [sfoo]⟩ : MatchResult))] : List (Nat × MatchResult)),
      match_group_exactly_one 11 [sfoo] [kwOnce "foo", kwOnce "bar"] =
        .ok ⟨b.2.remainder, true, b.2.matched_values⟩ ∧
      (∀ q ∈ ([(0, (⟨[], true, [sfoo]⟩ : MatchResult))] : List (Nat × MatchResult)),
        b.2.remainder.length ≤ q.2.remainder.length) ∧
      (∀ q ∈ ([(0, (⟨[], true, [sfoo]⟩ : MatchResult))] : List (Nat × MatchResult)),
        q.2.remainder.length = b.2.remainder.length → b.1 ≤ q.1) :=
  ((exactly_one_shortest_remainder_spec.1 10 [kwOnce "foo", kwOnce "bar"] [sfoo]
      [(0, (⟨[], true, [sfoo]⟩ : MatchResult))] (by simp) rfl).2.2) (by simp)

/-- C3: the fulfillment classification is a pure function of the
component's primary multiplier and the success count, and equals the
specification table for every count (`Once`: NotYetFulfilled at 0,
Fulfilled at 1, NotFulfilled at ≥2; `ZeroOrMore`: always
FulfilledButMoreAllowed; `OneOrMore`: NotYetFulfilled at 0,
FulfilledButMoreAllowed at ≥1; `Optional`: FulfilledButMoreAllowed at 0,
Fulfilled at 1, NotFulfilled at ≥2; `Between(min,max)`: NotYetFulfilled
below min, FulfilledButMoreAllowed within the range, NotFulfilled above
max); a component whose only multipliers are `AtLeastOneValue` or
`CommaSeparatedRepeat` is classified as if its multiplier were `Once`. -/
theorem multiplier_fulfilled_matches_spec_table :
    (∀ (comp : SyntaxComponent) (cnt : Nat),
      multiplier_fulfilled comp cnt = specFulfillment (primary_multiplier comp) cnt) ∧
    (∀ (comp : SyntaxComponent) (cnt : Nat),
      (∀ m ∈ comp.get_multipliers, multiplierExcluded m = true) →
      multiplier_fulfilled comp cnt = specFulfillment .once cnt) := by
  have main : ∀ (comp : SyntaxComponent) (cnt : Nat),
      multiplier_fulfilled comp cnt = specFulfillment (primary_multiplier comp) cnt := by
    intro comp cnt
    have hne := primary_multiplier_not_excluded comp
    unfold multiplier_fulfilled
    cases hp : primary_multiplier comp with
    | once => rcases cnt with _ | _ | n <;> rfl
    | zeroOrMore => rfl
    | oneOrMore => rcases cnt with _ | n <;> rfl
    | optional => rcases cnt with _ | _ | n <;> rfl
    | between mn mx =>
      simp only [specFulfillment]
      by_cases h1 : cnt < mn
      · simp [h1]
      · by_cases h2 : cnt ≤ mx
        · simp [h1, h2, Nat.le_of_not_lt h1]
        · simp [h1, h2]
    | atLeastOneValue => rw [hp] at hne; simp [multiplierExcluded] at hne
    | commaSeparatedRepeat mn mx => rw [hp] at hne; simp [multiplierExcluded] at hne
  refine ⟨main, ?_⟩
  intro comp cnt hall
  have hfil : comp.get_multipliers.filter (fun m => !multiplierExcluded m) = [] := by
    rw [List.filter_eq_nil_iff]
    intro m hm
    simp [hall m hm]
  have hp : primary_multiplier comp = .once := by
    unfold primary_multiplier; rw [hfil]; rfl
  rw [main comp cnt, hp]

/-- Witness for C3: a component whose only multiplier is
`CommaSeparatedRepeat` is classified by the `Once` column. -/
theorem multiplier_fulfilled_table_witness :
    multiplier_fulfilled c5_group 1 = specFulfillment .once 1 :=
  multiplier_fulfilled_matches_spec_table.2 c5_group 1 (by
    intro m hm
    simp only [c5_group, SyntaxComponent.get_multipliers, List.mem_singleton] at hm
    subst hm
    rfl)

/-- C4: in the multiplier loop of the inner matcher, whenever the
fulfillment state becomes `NotFulfilled` — after a successful unit match
that overshoots the multiplier, or on a unit-match failure — the result is
a no-match whose remainder is the original, untouched input (full
backtrack); on a unit-match failure the result is a success carrying the
already-matched values when the current count's fulfillment is
`FulfilledButMoreAllowed`, a no-match when it is `NotYetFulfilled`, and the
`Fulfilled`-on-failure case cannot occur: the loop's state invariant (count
0 at entry, and every continuation has fulfillment NotYetFulfilled or
FulfilledButMoreAllowed) excludes it, so the claim's
"Fulfilled or FulfilledButMoreAllowed ⇒ success" holds on every reachable
state.  In particular, for the grammar `foo bar{1,3} baz`, `matches`
accepts inputs with 1, 2 or 3 consecutive `bar` values between `foo` and
`baz` and rejects 0 or 4. -/
theorem inner_loop_fulfillment_spec :
    (∀ (fuel : Nat) (component : SyntaxComponent)
       (raw input matchedValues : List CssValue) (cnt : Nat) (r : MatchResult),
      input ≠ [] →
      unit_match fuel input component = .ok r →
      ((r.matched = true → multiplier_fulfilled component (cnt+1) = .notFulfilled →
          inner_loop (fuel+1) raw component input matchedValues cnt = .ok (no_match raw)) ∧
       (r.matched = false → multiplier_fulfilled component cnt = .notFulfilled →
          inner_loop (fuel+1) raw component input matchedValues cnt = .ok (no_match raw)) ∧
       (r.matched = false →
          multiplier_fulfilled component cnt = .fulfilledButMoreAllowed →
          inner_loop (fuel+1) raw component input matchedValues cnt =
            .ok ⟨input, true, matchedValues⟩) ∧
       (r.matched = false → multiplier_fulfilled component cnt = .notYetFulfilled →
          inner_loop (fuel+1) raw component input matchedValues cnt = .ok r) ∧
       ((cnt = 0 ∨ multiplier_fulfilled component cnt = .notYetFulfilled ∨
           multiplier_fulfilled component cnt = .fulfilledButMoreAllowed) →
          multiplier_fulfilled component cnt = .fulfilled → False))) ∧
    (compile 100 "foo bar{1,3} baz" = .ok c4_tree ∧
     c4_tree.matches 60 [sfoo, sbaz] = .ok false ∧
     c4_tree.matches 60 [sfoo, sbar, sbaz] = .ok true ∧
     c4_tree.matches 60 [sfoo, sbar, sbar, sbaz] = .ok true ∧
     c4_tree.matches 60 [sfoo, sbar, sbar, sbar, sbaz] = .ok true ∧
     c4_tree.matches 60 [sfoo, sbar, sbar, sbar, sbar, sbaz] = .ok false) := by
  constructor
  · intro fuel component raw input matchedValues cnt r hne hunit
    obtain ⟨v, rest, rfl⟩ : ∃ v rest, input = v :: rest := by
      cases input with
      | nil => exact absurd rfl hne
      | cons v rest => exact ⟨v, rest, rfl⟩
    unfold unit_match at hunit
    refine ⟨?_, ?_, ?_, ?_, ?_⟩
    · intro hmatched hmff
      simp [inner_loop, hunit, hmatched, hmff]
    · intro hmatched hmff
      simp [inner_loop, hunit, hmatched, hmff]
    · intro hmatched hmff
      simp [inner_loop, hunit, hmatched, hmff]
    · intro hmatched hmff
      simp [inner_loop, hunit, hmatched, hmff]
    · rintro (h0 | hn | hf) hful
      · rcases mff_zero component with h | h <;> rw [h0] at hful <;> simp [hful] at h
      · rw [hn] at hful; exact absurd hful (by simp)
      · rw [hf] at hful; exact absurd hful (by simp)
  · exact ⟨rfl, rfl, rfl, rfl, rfl, rfl⟩

/-- Witness for C4: `bar*` failing on input `[baz]` at count 0
(FulfilledButMoreAllowed) yields a success carrying the already-matched
(empty) values with the input as remainder. -/
theorem inner_loop_fulfillment_witness :
    inner_loop 6 [sbaz] barStar [sbaz] [] 0 = .ok ⟨[sbaz], true, []⟩ :=
  ((inner_loop_fulfillment_spec.1) 5 barStar [sbaz] [sbaz] [] 0 (no_match [sbaz])
    (by simp) rfl).2.2.1 rfl rfl

/-- C5: for every component whose multiplier is
`CommaSeparatedRepeat(min,max)`, `match_component` enters the CSV loop,
which repeatedly invokes the inner matcher, requires a literal `Comma`
value between successive successful matches (anything else after a
successful match is an overall no-match of the original input), treats a
missing value after a trailing comma as an overall no-match, and on loop
exit succeeds iff the number of repeats lies within `[min,max]`.  In
particular, for the grammar `[foo | bar | baz]#`, `matches` accepts `foo`,
`foo,foo` and `foo,bar,baz`, and rejects `foo,` and `foo,,bar`. -/
theorem comma_separated_repeat_spec :
    (∀ (fuel : Nat) (component : SyntaxComponent) (mn mx : Nat) (raw : List CssValue),
      csvParams component = some (mn, mx) →
      match_component (fuel+1) raw component = csv_loop fuel raw component mn mx 0 [] raw) ∧
    (∀ (fuel : Nat) (raw : List CssValue) (component : SyntaxComponent)
       (mn mx cnt : Nat) (mv input : List CssValue) (ir : MatchResult),
      match_component_inner fuel input component = .ok ir →
      ((ir.matched = false →
         csv_loop (fuel+1) raw component mn mx cnt mv input = csv_end raw mn mx cnt mv input) ∧
       (ir.matched = true → ir.remainder = [] →
         csv_loop (fuel+1) raw component mn mx cnt mv input =
           csv_end raw mn mx (cnt+1) (mv ++ ir.matched_values) []) ∧
       (∀ v rest, ir.matched = true → ir.remainder = v :: rest → v ≠ .comma →
         csv_loop (fuel+1) raw component mn mx cnt mv input = .ok (no_match raw)) ∧
       (ir.matched = true → ir.remainder = [.comma] →
         csv_loop (fuel+1) raw component mn mx cnt mv input = .ok (no_match raw)) ∧
       (∀ v2 rest, ir.matched = true → ir.remainder = .comma :: v2 :: rest →
         csv_loop (fuel+1) raw component mn mx cnt mv input =
           csv_loop fuel raw component mn mx (cnt+1) (mv ++ ir.matched_values) (v2 :: rest)))) ∧
    (∀ (raw : List CssValue) (mn mx cnt : Nat) (mv input : List CssValue),
      csv_end raw mn mx cnt mv input =
        if mn ≤ cnt ∧ cnt ≤ mx then .ok ⟨input, true, mv⟩ else .ok (no_match raw)) ∧
    (compile 100 "[foo | bar | baz]#" = .ok c5_tree ∧
     c5_tree.matches 60 [sfoo] = .ok true ∧
     c5_tree.matches 60 [sfoo, .comma, sfoo] = .ok true ∧
     c5_tree.matches 60 [sfoo, .comma, sbar, .comma, sbaz] = .ok true ∧
     c5_tree.matches 60 [sfoo, .comma] = .ok false ∧
     c5_tree.matches 60 [sfoo, .comma, .comma, sbar] = .ok false) := by
  refine ⟨?_, ?_, ?_, ⟨rfl, rfl, rfl, rfl, rfl, rfl⟩⟩
  · intro fuel component mn mx raw h
    unfold csvParams at h
    simp only [match_component, h]
  · intro fuel raw component mn mx cnt mv input ir hinner
    refine ⟨?_, ?_, ?_, ?_, ?_⟩
    · intro hm
      simp [csv_loop, hinner, hm]
    · intro hm hrem
      simp [csv_loop, hinner, hm, hrem]
    · intro v rest hm hrem hv
      cases v <;> simp_all [csv_loop, hinner, hm, hrem]
    · intro hm hrem
      simp [csv_loop, hinner, hm, hrem]
    · intro v2 rest hm hrem
      simp [csv_loop, hinner, hm, hrem]
  · intro raw mn mx cnt mv input
    rfl

/-- Witness for C5: the `[foo | bar | baz]#` group component routes
`match_component` into the CSV loop with bounds `(1, u32::MAX)`. -/
theorem comma_separated_repeat_witness :
    match_component 8 [sfoo] c5_group = csv_loop 7 [sfoo] c5_group 1 4294967295 0 [] [sfoo] :=
  comma_separated_repeat_spec.1 7 c5_group 1 4294967295 [sfoo] rfl

/-- Counterexample for C6 (as stated): compiling `left | right && top`
yields the `ExactlyOne` root `[left, AllAnyOrder[right, top]]` — because
`|` binds loosest it becomes the outermost group — and not the tree the
claim describes (an `AllAnyOrder` root over `ExactlyOne[left, right]` and
`top`, which would mean `|` binds tighter than `&&`). -/
theorem precedence_example_counterexample :
    compile 100 "left | right && top" = .ok precedence_actual_tree ∧
    precedence_actual_tree ≠ precedence_claimed_tree :=
  ⟨rfl, by simp [precedence_actual_tree, precedence_claimed_tree, kwOnce]⟩

/-- C6 (amended): the compiler implements the precedence order `|` loosest,
then `||`, then `&&`, then juxtaposition tightest; compiling
`left | right && top` yields a single root `Group{ExactlyOne, [left,
Group{AllAnyOrder, [right, top]}]}` (the loosest operator is the outermost
group), and the full chain `a | b || c && d e` compiles to
`ExactlyOne[a, AtLeastOneAnyOrder[b, AllAnyOrder[c, Juxtaposition[d, e]]]]`. -/
theorem precedence_compile_amended :
    compile 100 "left | right && top" = .ok precedence_actual_tree ∧
    compile 100 "a | b || c && d e" = .ok precedence_chain_tree :=
  ⟨rfl, rfl⟩

/-- Counterexample for C7 (as stated): the grammar string `]` fails to
compile, yet the registry still registers the property — `find` returns a
definition (with the empty zero-root tree), not `None` as the claim
states. -/
theorem failed_compile_registered_counterexample :
    compile 100 "]" = .error "CssCompile" ∧
    parse_definition_file_internal 100 (.arr [c7_entry]) = .ok [("badprop", c7_stored)] ∧
    findProperty [("badprop", c7_stored)] "badprop" = some c7_stored ∧
    c7_stored.syntaxTree = CssSyntaxTree.mk [] :=
  ⟨rfl, rfl, rfl, rfl⟩

/-- C7 (amended): when the registry loads the property definitions table,
a property whose syntax grammar string fails to compile is NOT skipped: it
is registered with the empty zero-root syntax tree in place of its grammar
(so a subsequent `find(name)` returns a definition whose tree panics on any
match attempt), the failure is not fatal to the registry, and all other
properties are unaffected. -/
theorem failed_compile_registered_empty_tree :
    ∀ (fuel : Nat) (pre : List Json) (entry : Json) (name syn e : String)
      (defs : List (String × PropertyDefinition)),
      (entry.idx "name").as_str = some name →
      (entry.idx "syntax").as_str = some syn →
      compile fuel syn = .error e →
      parse_definition_file_internal fuel (.arr (pre ++ [entry])) = .ok defs →
      ∃ defs0, parse_definition_file_internal fuel (.arr pre) = .ok defs0 ∧
        (∃ d, findProperty defs name = some d ∧ d.name = name ∧
              d.syntaxTree = CssSyntaxTree.mk [] ∧ d.initial_value = Option.none) ∧
        (∀ n, n ≠ name → findProperty defs n = findProperty defs0 n) := by
  intro fuel pre entry name syn e defs hname hsyn hcomp hload
  simp only [parse_definition_file_internal, Json.as_array] at hload ⊢
  rw [load_entries_append] at hload
  cases hpre : load_entries fuel pre [] with
  | panic => rw [hpre] at hload; exact absurd hload (by simp)
  | out => rw [hpre] at hload; exact absurd hload (by simp)
  | ok defs0 =>
    rw [hpre] at hload
    refine ⟨defs0, rfl, ?_⟩
    simp only [load_entries] at hload
    cases hent : load_entry fuel entry with
    | panic => rw [hent] at hload; exact absurd hload (by simp)
    | out => rw [hent] at hload; exact absurd hload (by simp)
    | ok d =>
      rw [hent] at hload
      simp only [load_entries] at hload
      injection hload with hload
      subst hload
      obtain ⟨hdname, hdiv, hdtree⟩ := load_entry_fields fuel entry name hname d hent
      rw [hsyn] at hdtree
      simp only [hcomp] at hdtree
      constructor
      · refine ⟨d, ?_, hdname, hdtree, hdiv⟩
        rw [hdname]
        exact findProperty_insert_self defs0 name d
      · intro n hn
        rw [hdname]
        exact findProperty_insert_other defs0 name d n hn

/-- Witness for C7: the concrete one-entry table with the uncompilable
grammar `]`, applied to the amended theorem. -/
theorem failed_compile_registered_witness :
    ∃ defs0, parse_definition_file_internal 100 (.arr []) = .ok defs0 ∧
      (∃ d, findProperty [("badprop", c7_stored)] "badprop" = some d ∧ d.name = "badprop" ∧
            d.syntaxTree = CssSyntaxTree.mk [] ∧ d.initial_value = Option.none) ∧
      (∀ n, n ≠ "badprop" →
        findProperty [("badprop", c7_stored)] n = findProperty defs0 n) :=
  failed_compile_registered_empty_tree 100 [] c7_entry "badprop" "]" "CssCompile"
    [("badprop", c7_stored)] rfl rfl rfl rfl

/-- C8 (the code bug): the registry never reads `initial_value` from a
definitions record — the variable stays `None`, so the load-time check of
the declared initial value against the compiled grammar (source lines
252-268) is dead code and the stored definition always has
`initial_value = none`, even though the property's own grammar would accept
the declared value (here `left` against the grammar `left`). -/
theorem initial_value_never_loaded :
    (c8_entry.idx "initial_value").as_str = some "left" ∧
    parse_definition_file_internal 100 (.arr [c8_entry]) = .ok [("fakep", c8_stored)] ∧
    c8_stored.initial_value = Option.none ∧
    c8_stored.syntaxTree.matches 60 [CssValue.string "left"] = .ok true :=
  ⟨rfl, rfl, rfl, rfl⟩

/-- C9: matching a compiled tree that contains an unresolved `Definition`
leaf (here the compiled `<length>`) reaches the explicit `todo!` panic for
a concrete input, and matching a compiled `Function` component (here the
compiled `calc()`) against a `Function` value with non-empty arguments
reaches the other `todo!` panic, while the empty-argument case still
matches — the two known unimplemented panic gaps of the matcher. -/
theorem matcher_unimplemented_panics :
    compile 100 "<length>" = .ok c9_def_tree ∧
    c9_def_tree.matches 60 [CssValue.string "10px"] = .panic ∧
    compile 100 "calc()" = .ok c9_fn_tree ∧
    c9_fn_tree.matches 60 [CssValue.function "calc" [CssValue.string "1"]] = .panic ∧
    c9_fn_tree.matches 60 [CssValue.function "calc" []] = .ok true :=
  ⟨rfl, rfl, rfl, rfl, rfl⟩

/-- C10: compiling the empty grammar string succeeds with a zero-root tree,
the registry stores such zero-root trees for properties with an empty or
absent `syntax` field, and calling `matches` on any such stored tree panics
for every input (the exactly-one-root check fails), so an empty-grammar
property can never be matched without a panic. -/
theorem empty_grammar_registry_matches_panic :
    (∀ fuel : Nat, compile fuel "" = .ok ⟨[]⟩) ∧
    (∀ (fuel : Nat) (pre : List Json) (entry : Json) (name : String)
       (defs : List (String × PropertyDefinition)),
      (entry.idx "name").as_str = some name →
      ((entry.idx "syntax").as_str = Option.none ∨
        (entry.idx "syntax").as_str = some "") →
      parse_definition_file_internal fuel (.arr (pre ++ [entry])) = .ok defs →
      ∃ d, findProperty defs name = some d ∧ d.syntaxTree = CssSyntaxTree.mk [] ∧
        ∀ (f : Nat) (input : List CssValue), d.syntaxTree.matches f input = .panic) ∧
    (∀ (fuel : Nat) (input : List CssValue),
      CssSyntaxTree.matches fuel (CssSyntaxTree.mk []) input = .panic) := by
  refine ⟨fun _ => rfl, ?_, fun _ _ => rfl⟩
  intro fuel pre entry name defs hname hsyn hload
  simp only [parse_definition_file_internal, Json.as_array] at hload
  rw [load_entries_append] at hload
  cases hpre : load_entries fuel pre [] with
  | panic => rw [hpre] at hload; exact absurd hload (by simp)
  | out => rw [hpre] at hload; exact absurd hload (by simp)
  | ok defs0 =>
    rw [hpre] at hload
    simp only [load_entries] at hload
    cases hent : load_entry fuel entry with
    | panic => rw [hent] at hload; exact absurd hload (by simp)
    | out => rw [hent] at hload; exact absurd hload (by simp)
    | ok d =>
      rw [hent] at hload
      simp only [load_entries] at hload
      injection hload with hload
      subst hload
      obtain ⟨hdname, _, hdtree⟩ := load_entry_fields fuel entry name hname d hent
      have htree : d.syntaxTree = CssSyntaxTree.mk [] := by
        rcases hsyn with hs | hs <;> rw [hs] at hdtree <;> simpa using hdtree
      refine ⟨d, ?_, htree, ?_⟩
      · rw [hdname]
        exact findProperty_insert_self defs0 name d
      · intro f input
        rw [htree]
        rfl

/-- Witness for C10: a record with no `syntax` field is stored with a
zero-root tree whose `matches` panics on every input. -/
theorem empty_grammar_registry_witness :
    ∃ d, findProperty [("emptyprop", c10_stored)] "emptyprop" = some d ∧
      d.syntaxTree = CssSyntaxTree.mk [] ∧
      ∀ (f : Nat) (input : List CssValue), d.syntaxTree.matches f input = .panic :=
  empty_grammar_registry_matches_panic.2.1 100 [] c10_entry "emptyprop"
    [("emptyprop", c10_stored)] rfl (Or.inl rfl) rfl

end Gosub
